import Mathlib

/-!
Verification development for the fermion-app sandbox client SDK.

The development embeds, as executable Lean definitions, the parts of the
SDK that carry the session/connection/correlation logic:

* the `SandboxWebSocket` duplex-channel wrapper (src/src/websocket.ts;
  the file contains several revisions of the class, and where they
  differ each embedded operation names the revision it comes from);
* the `Sandbox` orchestrator surface (src/src/index.ts), including
  `normalizePath`, `exposePort`, the Base64URL codec and the
  not-connected guards;
* the `runStreamingCommand` loop of the event-waiter-based revision
  (src/unnamed/part_003).

JavaScript `Map`s are modelled by association lists, `setTimeout`
callbacks by a set of active timers fired by the environment, and
promise settlement by a first-write-wins association from promise ids
to outcomes.  `nanoid`-generated message ids are modelled by a fresh-id
counter (the uniqueness assumption of nanoid).  Each callback or
transport interaction performed by a transition is emitted as an
explicit action, so ordering and exactly-once properties are statements
about the action trace.
-/

namespace FermionSdk

/-- Association-list lookup with decidable key equality, modelling JS
`Map.get`. -/
def lookupA {κ α : Type} [DecidableEq κ] : List (κ × α) → κ → Option α
  | [], _ => none
  | (k, v) :: rest, key => if k = key then some v else lookupA rest key

/-- Association-list insert-or-replace, modelling JS `Map.set`
(replaces in place when the key is present, else appends). -/
def setA {κ α : Type} [DecidableEq κ] : List (κ × α) → κ → α → List (κ × α)
  | [], key, v => [(key, v)]
  | (k, w) :: rest, key, v =>
    if k = key then (key, v) :: rest else (k, w) :: setA rest key v

/-- Association-list removal, modelling JS `Map.delete`. -/
def eraseA {κ α : Type} [DecidableEq κ] : List (κ × α) → κ → List (κ × α)
  | [], _ => []
  | (k, w) :: rest, key => if k = key then rest else (k, w) :: eraseA rest key

/-- Streaming event details of a `StreamLongRunningTaskEvent`, from the
`WebSocketResponsePayload` union in constants.ts: either incremental io
data or a terminal close record carrying a nullable exit code and a
nullable error string. -/
inductive EventDetails where
  | io (stdout stderr : Option String)
  | close (code : Option Int) (error : Option String)
deriving DecidableEq, Repr

/-- Inbound payloads.  `stream` is the `StreamLongRunningTaskEvent`
variant of `WebSocketResponsePayload`; every other payload shape
(direct replies, bare events) is `plain`, keeping its `eventType` tag
and abstracting the remaining JSON fields into one opaque blob. -/
inductive InPayload where
  | plain (eventType : String) (data : String)
  | stream (uniqueTaskId : String) (processId : Int) (eventDetails : EventDetails)
deriving DecidableEq, Repr

/-- The `eventType` field carried by an inbound payload. -/
def InPayload.eventType : InPayload → String
  | .plain e _ => e
  | .stream _ _ _ => "StreamLongRunningTaskEvent"

/-- An inbound `{ messageId, payload }` message.  Message ids are
nanoid strings in the source; they are modelled as naturals drawn from
a fresh-id counter. -/
structure InMessage where
  messageId : Nat
  payload : InPayload
deriving DecidableEq, Repr

/-- A serialized outbound `{ messageId, payload }` message, as produced
by `constructRawWebSocketMessage`; payload fields beyond the event type
are abstracted into one opaque blob. -/
structure OutMessage where
  messageId : Nat
  eventType : String
  data : String
deriving DecidableEq, Repr

/-- The `connectionState` field of `SandboxWebSocket`. -/
inductive ConnState where
  | disconnected
  | connecting
  | connected
deriving DecidableEq, Repr

/-- A streaming-task handler registration.  The source stores three
optional callbacks; the model records which of them are provided, and
invocations are emitted as actions tagged with the task id. -/
structure TaskHandler where
  onStdout : Bool
  onStderr : Bool
  onClose : Bool
deriving DecidableEq, Repr

/-- The callback of a scheduled `setTimeout`, by source site:
`requestTimeout` is the timeout registered by `send`;
`waiterTimeout` is the waiter timeout of the first/third revisions of
`waitForNextFutureWebSocketEvent` (unconditionally deletes the map
entry for its event type and rejects its own promise);
`waiterTimeoutG` is the waiter timeout of the second revision, which
acts only if the registered waiter is still its own promise. -/
inductive TimerKind where
  | requestTimeout (messageId : Nat) (pid : Nat) (eventType : String)
  | waiterTimeout (eventType : String) (pid : Nat)
  | waiterTimeoutG (eventType : String) (pid : Nat)
deriving DecidableEq, Repr

/-- The outcome a deferred promise is settled with. -/
inductive Outcome where
  | resolved (p : InPayload)
  | rejected (msg : String)
deriving DecidableEq, Repr

/-- Observable interactions performed by a transition: a settle attempt
on a deferred promise, a message handed to the transport, a physical
close, or a streaming-handler callback invocation. -/
inductive WsAction where
  | settle (pid : Nat) (o : Outcome)
  | transportSend (m : OutMessage)
  | closeTransport
  | chunkOut (taskId : String) (s : String)
  | chunkErr (taskId : String) (s : String)
  | closeCb (taskId : String) (code : Option Int)
deriving DecidableEq, Repr

/-- State of one `SandboxWebSocket` instance.  `pending` maps a message
id to the promise id and timer id of its pending request; `waiters`
maps an event type to the promise id and timer id of its registered
waiter; `settled` is the ambient promise-settlement record
(first write wins, as for JS promises); `sendPids` is bookkeeping that
records which promise ids were created by `send` — no transition reads
it, it only serves to state the correlation theorems. -/
structure WsState where
  wsPresent : Bool
  connectionState : ConnState
  shouldAutoReconnect : Bool
  pending : List (Nat × Nat × Nat)
  waiters : List (String × Nat × Nat)
  handlers : List (String × TaskHandler)
  messagesData : List OutMessage
  timers : List (Nat × TimerKind)
  settled : List (Nat × Outcome)
  sendPids : List Nat
  nextPid : Nat
  nextTimerId : Nat
  nextMsgNum : Nat
deriving DecidableEq, Repr

/-- Rejection message used by `cleanDirtyWebSocketIfPresent`. -/
def wsClosedMsg : String := "WebSocket closed"

/-- Rejection message used when a waiter is superseded. -/
def replacedMsg : String := "Replaced by new wait"

/-- Rejection message of a request timeout. -/
def requestTimeoutMsg (eventType : String) : String :=
  "Request timeout for " ++ eventType

/-- Rejection message of a waiter timeout. -/
def waiterTimeoutMsg (eventType : String) : String :=
  "Timeout waiting for event: " ++ eventType

/-- First-write-wins promise settlement: settling an already settled
promise is a no-op, as for JS `resolve`/`reject`. -/
def settleFirst (settled : List (Nat × Outcome)) (pid : Nat) (o : Outcome) :
    List (Nat × Outcome) :=
  if (lookupA settled pid).isSome then settled else settled ++ [(pid, o)]

namespace SandboxWebSocket

/-- The freshly constructed wrapper: no socket, `disconnected`,
auto-reconnect enabled, all maps empty. -/
def initState : WsState :=
  ⟨false, .disconnected, true, [], [], [], [], [], [], [], 0, 0, 0⟩

/-- Embeds `sendSingleMessage`: queue the raw message when not
connected or the socket is gone, else hand it to the transport.
The `ws.send` exception path (re-queue on throw) is not modelled; the
model's transport send always succeeds. -/
def sendSingleMessage (s : WsState) (m : OutMessage) : WsState × List WsAction :=
  if s.connectionState ≠ ConnState.connected ∨ s.wsPresent = false then
    ({ s with messagesData := s.messagesData ++ [m] }, [])
  else (s, [WsAction.transportSend m])

/-- Embeds `send`: draw a fresh message id (nanoid) and a fresh
deferred promise, schedule the request timeout, register the pending
entry, then attempt delivery.  `sendPids` records the new promise id
(bookkeeping only). -/
def send (s : WsState) (eventType data : String) : WsState × List WsAction :=
  let messageId := s.nextMsgNum
  let pid := s.nextPid
  let tid := s.nextTimerId
  let s1 : WsState := { s with
    nextMsgNum := s.nextMsgNum + 1
    nextPid := s.nextPid + 1
    nextTimerId := s.nextTimerId + 1
    timers := s.timers ++ [(tid, TimerKind.requestTimeout messageId pid eventType)]
    pending := setA s.pending messageId (pid, tid)
    sendPids := s.sendPids ++ [pid] }
  sendSingleMessage s1 ⟨messageId, eventType, data⟩

/-- Embeds `waitForNextFutureWebSocketEvent`: reject any existing
waiter for the event type with the superseded error, then register a
fresh waiter with a fresh timeout.  `guarded := false` stores the
first/third revisions' timeout callback, `guarded := true` the second
revision's guarded callback; the registration body is the same in all
revisions. -/
def waitForNextFutureWebSocketEvent (s : WsState) (eventType : String)
    (guarded : Bool) : WsState × List WsAction :=
  let pid := s.nextPid
  let tid := s.nextTimerId
  let prior := lookupA s.waiters eventType
  let settled1 := match prior with
    | some pe => settleFirst s.settled pe.1 (.rejected replacedMsg)
    | none => s.settled
  let acts1 : List WsAction := match prior with
    | some pe => [WsAction.settle pe.1 (.rejected replacedMsg)]
    | none => []
  let kind := if guarded then TimerKind.waiterTimeoutG eventType pid
    else TimerKind.waiterTimeout eventType pid
  ({ s with
      settled := settled1
      nextPid := s.nextPid + 1
      nextTimerId := s.nextTimerId + 1
      timers := s.timers ++ [(tid, kind)]
      waiters := setA s.waiters eventType (pid, tid) }, acts1)

/-- Embeds `addStreamingTaskHandler`: `Map.set` of the handler. -/
def addStreamingTaskHandler (s : WsState) (taskId : String) (h : TaskHandler) :
    WsState × List WsAction :=
  ({ s with handlers := setA s.handlers taskId h }, [])

/-- Embeds the two `forEach` loops of `cleanDirtyWebSocketIfPresent`:
for each entry, clear its recorded timer and reject its promise with
the closed error. -/
def rejectEntries (settled : List (Nat × Outcome)) (timers : List (Nat × TimerKind)) :
    List (Nat × Nat) → List (Nat × Outcome) × List (Nat × TimerKind) × List WsAction
  | [] => (settled, timers, [])
  | (pid, tid) :: rest =>
    let settled1 := settleFirst settled pid (.rejected wsClosedMsg)
    let timers1 := eraseA timers tid
    let (settled2, timers2, acts) := rejectEntries settled1 timers1 rest
    (settled2, timers2, WsAction.settle pid (.rejected wsClosedMsg) :: acts)

/-- Embeds `cleanDirtyWebSocketIfPresent`: drop the socket (closing it
if present), reject every pending request and every registered waiter
with the closed error while clearing their recorded timers, then clear
both maps and the outbound queue.  The health-ping timer is not
modelled (see `onOpen`). -/
def cleanDirtyWebSocketIfPresent (s : WsState) : WsState × List WsAction :=
  let closeActs : List WsAction := if s.wsPresent then [WsAction.closeTransport] else []
  let r1 := rejectEntries s.settled s.timers (s.pending.map (fun x => x.2))
  let r2 := rejectEntries r1.1 r1.2.1 (s.waiters.map (fun x => x.2))
  ({ s with
      wsPresent := false
      pending := []
      waiters := []
      messagesData := []
      timers := r2.2.1
      settled := r2.1 }, closeActs ++ r1.2.2 ++ r2.2.2)

/-- Embeds `disconnect` of the first revision (websocket.ts lines
165-168): disable auto-reconnect, then clean up. -/
def disconnect (s : WsState) : WsState × List WsAction :=
  cleanDirtyWebSocketIfPresent { s with shouldAutoReconnect := false }

/-- Embeds `disconnect` of the third revision (websocket.ts lines
947-949): clean up only; the auto-reconnect flag is left unchanged. -/
def disconnectV3 (s : WsState) : WsState × List WsAction :=
  cleanDirtyWebSocketIfPresent s

/-- Embeds the third revision's separate `disableWsAutoReconnect`. -/
def disableWsAutoReconnect (s : WsState) : WsState × List WsAction :=
  ({ s with shouldAutoReconnect := false }, [])

/-- Embeds `connect` up to the transport's open callback: when not
already connected, move to `connecting` and install a fresh socket.
The transport's later `open` event is the separate `transportOpen`
transition. -/
def connect (s : WsState) : WsState × List WsAction :=
  if s.connectionState = ConnState.connected then (s, [])
  else ({ s with connectionState := ConnState.connecting, wsPresent := true }, [])

/-- Embeds `onOpen`: become connected and flush the queued messages to
the transport in their queue order (each flushed message goes through
`sendSingleMessage` in the now-connected state, hence straight to the
transport).  `startHealthPing` only schedules a future internal `send`
call, which touches none of the maps or the queue; the ping schedule is
not modelled and a ping's `send` is covered by the `opSend`
transition. -/
def onOpen (s : WsState) : WsState × List WsAction :=
  ({ s with connectionState := ConnState.connected, messagesData := [] },
    s.messagesData.map (fun m => WsAction.transportSend m))

/-- Embeds `onClose` up to the reconnect attempt: become disconnected
and clean up.  The delayed reconnect attempt is the separate
`opConnect` transition. -/
def onClose (s : WsState) : WsState × List WsAction :=
  cleanDirtyWebSocketIfPresent { s with connectionState := ConnState.disconnected }

/-- Embeds `onMessage` of the first/third revisions: a
`StreamLongRunningTaskEvent` payload is routed to the registered task
handler (io events invoke the provided chunk callbacks for the non-null
fields; a close event invokes the close callback with the raw nullable
code and deregisters the handler; with no handler the message is
dropped); any other payload resolves the pending request matching the
message id, else the waiter matching the event type, else is
dropped. -/
def onMessage (s : WsState) (m : InMessage) : WsState × List WsAction :=
  match m.payload with
  | .stream taskId _ details =>
    match lookupA s.handlers taskId with
    | none => (s, [])
    | some h =>
      match details with
      | .io so se =>
        let outActs : List WsAction := match so with
          | some v => if h.onStdout then [WsAction.chunkOut taskId v] else []
          | none => []
        let errActs : List WsAction := match se with
          | some v => if h.onStderr then [WsAction.chunkErr taskId v] else []
          | none => []
        (s, outActs ++ errActs)
      | .close code _err =>
        ({ s with handlers := eraseA s.handlers taskId },
          if h.onClose then [WsAction.closeCb taskId code] else [])
  | .plain _ _ =>
    match lookupA s.pending m.messageId with
    | some pt =>
      ({ s with
          timers := eraseA s.timers pt.2
          pending := eraseA s.pending m.messageId
          settled := settleFirst s.settled pt.1 (.resolved m.payload) },
        [WsAction.settle pt.1 (.resolved m.payload)])
    | none =>
      match lookupA s.waiters m.payload.eventType with
      | some pt =>
        ({ s with
            timers := eraseA s.timers pt.2
            waiters := eraseA s.waiters m.payload.eventType
            settled := settleFirst s.settled pt.1 (.resolved m.payload) },
          [WsAction.settle pt.1 (.resolved m.payload)])
      | none => (s, [])

/-- Fires a scheduled timeout: a timer that was cleared (or never
existed) is a no-op; an active timer is consumed and its callback
runs.  The `requestTimeout` callback deletes the pending entry for its
message id and rejects its promise; the unguarded `waiterTimeout`
callback deletes whatever waiter is currently registered for its event
type and rejects its own promise; the guarded `waiterTimeoutG` callback
does so only if the registered waiter is still its own promise. -/
def fireTimer (s : WsState) (tid : Nat) : WsState × List WsAction :=
  match lookupA s.timers tid with
  | none => (s, [])
  | some kind =>
    let s0 : WsState := { s with timers := eraseA s.timers tid }
    match kind with
    | .requestTimeout mid pid et =>
      ({ s0 with
          pending := eraseA s0.pending mid
          settled := settleFirst s0.settled pid (.rejected (requestTimeoutMsg et)) },
        [WsAction.settle pid (.rejected (requestTimeoutMsg et))])
    | .waiterTimeout et pid =>
      ({ s0 with
          waiters := eraseA s0.waiters et
          settled := settleFirst s0.settled pid (.rejected (waiterTimeoutMsg et)) },
        [WsAction.settle pid (.rejected (waiterTimeoutMsg et))])
    | .waiterTimeoutG et pid =>
      match lookupA s0.waiters et with
      | some pt =>
        if pt.1 = pid then
          ({ s0 with
              waiters := eraseA s0.waiters et
              settled := settleFirst s0.settled pid (.rejected (waiterTimeoutMsg et)) },
            [WsAction.settle pid (.rejected (waiterTimeoutMsg et))])
        else (s0, [])
      | none => (s0, [])

end SandboxWebSocket

/-- Environment events driving one `SandboxWebSocket` instance: public
method calls, transport callbacks, inbound messages, and timer
firings. -/
inductive WsEvent where
  | opSend (eventType data : String)
  | opWaitForEvent (eventType : String) (guarded : Bool)
  | opAddHandler (taskId : String) (h : TaskHandler)
  | opDisconnect
  | opDisconnectV3
  | opDisableAutoReconnect
  | opConnect
  | transportOpen
  | transportClose
  | inbound (m : InMessage)
  | fireTimer (tid : Nat)
deriving DecidableEq, Repr

/-- One transition of the channel wrapper.  Transport callbacks
(`open`, `close`, `message`) can only fire while a socket with
listeners is present (`cleanDirtyWebSocketIfPresent` removes all
listeners). -/
def step (s : WsState) : WsEvent → WsState × List WsAction
  | .opSend e d => SandboxWebSocket.send s e d
  | .opWaitForEvent e g => SandboxWebSocket.waitForNextFutureWebSocketEvent s e g
  | .opAddHandler t h => SandboxWebSocket.addStreamingTaskHandler s t h
  | .opDisconnect => SandboxWebSocket.disconnect s
  | .opDisconnectV3 => SandboxWebSocket.disconnectV3 s
  | .opDisableAutoReconnect => SandboxWebSocket.disableWsAutoReconnect s
  | .opConnect => SandboxWebSocket.connect s
  | .transportOpen => if s.wsPresent then SandboxWebSocket.onOpen s else (s, [])
  | .transportClose => if s.wsPresent then SandboxWebSocket.onClose s else (s, [])
  | .inbound m => if s.wsPresent then SandboxWebSocket.onMessage s m else (s, [])
  | .fireTimer t => SandboxWebSocket.fireTimer s t

/-- Runs a sequence of events, concatenating the emitted actions. -/
def run (s : WsState) : List WsEvent → WsState × List WsAction
  | [] => (s, [])
  | e :: es =>
    let p := step s e
    let q := run p.1 es
    (q.1, p.2 ++ q.2)

/-- Folds the action trace into the record the streaming-command
closure of `Sandbox.runStreamingCommand` (src/src/index.ts lines
690-710) resolves its promise with: stdout and stderr chunks for the
task id are accumulated in order, and the first close callback resolves
the promise with the accumulated output and the exit code exactly as
the callback received it.  `none` means the promise was never
resolved. -/
def streamingCommandResult (taskId : String) (stdout stderr : String) :
    List WsAction → Option (String × String × Option Int)
  | [] => none
  | a :: rest =>
    match a with
    | .chunkOut t v =>
      if t = taskId then streamingCommandResult taskId (stdout ++ v) stderr rest
      else streamingCommandResult taskId stdout stderr rest
    | .chunkErr t v =>
      if t = taskId then streamingCommandResult taskId stdout (stderr ++ v) rest
      else streamingCommandResult taskId stdout stderr rest
    | .closeCb t code =>
      if t = taskId then some (stdout, stderr, code)
      else streamingCommandResult taskId stdout stderr rest
    | _ => streamingCommandResult taskId stdout stderr rest

/-- A `StreamLongRunningTaskEvent` payload as consumed by the
event-waiter-based `runStreamingCommand` loop (src/unnamed/part_003
lines 598-629). -/
structure StreamEvt where
  uniqueTaskId : String
  eventDetails : EventDetails
deriving DecidableEq, Repr

/-- Embeds the body of the `while` loop of `runStreamingCommand` in
src/unnamed/part_003 applied to the successive
`StreamLongRunningTaskEvent` payloads it awaits: events for another
task id are skipped; io events invoke the chunk callbacks for their
non-null fields; the first close event for the task computes
`exitCode = code ?? 0`, then throws the error string if it is non-null,
else invokes `onClose(exitCode)` and returns.  The result is the
emitted callback actions plus `some (ok exitCode)` on normal return,
`some (error msg)` on throw, or `none` when the loop exits because the
channel dropped before a close event arrived. -/
def runStreamingCommandLoop (taskId : String) :
    List StreamEvt → List WsAction × Option (Except String Int)
  | [] => ([], none)
  | e :: rest =>
    if e.uniqueTaskId ≠ taskId then runStreamingCommandLoop taskId rest
    else
      match e.eventDetails with
      | .io so se =>
        let outActs : List WsAction := match so with
          | some v => [WsAction.chunkOut taskId v]
          | none => []
        let errActs : List WsAction := match se with
          | some v => [WsAction.chunkErr taskId v]
          | none => []
        let r := runStreamingCommandLoop taskId rest
        (outActs ++ errActs ++ r.1, r.2)
      | .close code err =>
        match err with
        | some msg => ([], some (Except.error msg))
        | none =>
          ([WsAction.closeCb taskId (some (code.getD 0))], some (Except.ok (code.getD 0)))

/-! ## Session orchestrator (src/src/index.ts)

Paths and error messages are modelled as character lists (JS strings).
Each public operation is embedded from its guards down to its first
network interaction, which is returned as an explicit `NetCall` value;
an `Except.error` result is a thrown error, produced before any network
interaction. -/

/-- Message of the not-connected guard shared by the public
operations. -/
def notConnectedMsg : String :=
  "Not connected to sandbox. Please call create() or fromSnippet() first."

/-- Message thrown when `containerDetails` is null. -/
def noContainerMsg : String := "No container found"

/-- Error text of `normalizePath` in src/src/index.ts. -/
def invalidPathMsg (path : List Char) : List Char :=
  "Invalid path: ".data ++ path ++ ". Path must start with ~ or /home/damner".data

/-- The tilde shorthand, as a character list. -/
def tildeChars : List Char := ['~']

/-- The recognized home directory of src/src/index.ts. -/
def homeDamner : List Char := "/home/damner".data

/-- The recognized home directory of the src/unnamed/part_006
revision. -/
def homeDamnerCode : List Char := "/home/damner/code".data

/-- Embeds `normalizePath` of src/src/index.ts lines 65-77: a path
starting with `~` has that first character replaced by `/home/damner`
(`path.replace` rewrites the first occurrence of `~`, which under the
`startsWith` guard is position 0); a path starting with `/home/damner`
is kept; anything else throws the invalid-path error. -/
def normalizePath (path : List Char) : Except (List Char) (List Char) :=
  if tildeChars.isPrefixOf path then Except.ok (homeDamner ++ path.drop 1)
  else if homeDamner.isPrefixOf path then Except.ok path
  else Except.error (invalidPathMsg path)

/-- Error text of `normalizePath` in src/unnamed/part_006. -/
def invalidPathMsgVariant (path : List Char) : List Char :=
  "Path must start with ~ or /home/damner/code. Got: \"".data ++ path ++ "\".".data

/-- Embeds the `normalizePath` revision of src/unnamed/part_006 lines
25-37, whose recognized home-prefix is `/home/damner/code`
(`path.replace` with the anchored pattern rewrites the leading `~`). -/
def normalizePathCodeVariant (path : List Char) : Except (List Char) (List Char) :=
  if tildeChars.isPrefixOf path then Except.ok (homeDamnerCode ++ path.drop 1)
  else if homeDamnerCode.isPrefixOf path then Except.ok path
  else Except.error (invalidPathMsgVariant path)

/-- Connection details returned by provisioning. -/
structure ContainerDetails where
  subdomain : String
  playgroundContainerAccessToken : String
deriving DecidableEq, Repr

/-- The orchestrator state relevant to the public operations.  `ws` is
`some b` when `this.ws` holds a channel wrapper whose `isConnected()`
returns `b`, and `none` when `this.ws` is null. -/
structure SandboxState where
  playgroundSessionId : Option String
  playgroundSnippetId : Option String
  containerDetails : Option ContainerDetails
  ws : Option Bool
deriving DecidableEq, Repr

/-- The first network interaction a public operation performs. -/
inductive NetCall where
  | staticGet (cd : ContainerDetails) (fullPath : List Char)
  | staticPut (cd : ContainerDetails) (fullPath : List Char)
  | disconnectGet (cd : ContainerDetails)
  | wsSendStart (eventType : String)
deriving DecidableEq, Repr

namespace Sandbox

/-- Embeds `Sandbox.isConnected`: `this.ws?.isConnected() ?? false`. -/
def isConnected (s : SandboxState) : Bool :=
  match s.ws with
  | some b => b
  | none => false

/-- Embeds `Sandbox.disconnect` (src/src/index.ts lines 454-476): guard
on connectivity, call `disableWsAutoReconnect`, issue the HTTP
disconnect GET when container details exist, call the channel's
`disconnect`, and null out `ws`.  The channel-level teardown effects
are the subject of the channel model; here the result is the new
orchestrator state plus the HTTP call performed. -/
def disconnect (s : SandboxState) : Except (List Char) (SandboxState × Option NetCall) :=
  if isConnected s = false then Except.error notConnectedMsg.data
  else
    Except.ok ({ s with ws := none },
      s.containerDetails.map (fun cd => NetCall.disconnectGet cd))

/-- Embeds `Sandbox.getFile` down to its `fetch`: connectivity guard,
path normalization (throws before any network call), then the static
server GET with the normalized path. -/
def getFile (s : SandboxState) (path : List Char) : Except (List Char) NetCall :=
  if isConnected s = false then Except.error notConnectedMsg.data
  else
    match normalizePath path with
    | Except.error e => Except.error e
    | Except.ok np =>
      match s.containerDetails with
      | some cd => Except.ok (NetCall.staticGet cd np)
      | none => Except.error noContainerMsg.data

/-- Embeds `Sandbox.writeFile` down to its `fetch`: connectivity guard,
path normalization (throws before any network call), then the static
server PUT with the normalized path (the request body is the supplied
content and is not part of the modelled call). -/
def writeFile (s : SandboxState) (path : List Char) (_content : String) :
    Except (List Char) NetCall :=
  if isConnected s = false then Except.error notConnectedMsg.data
  else
    match normalizePath path with
    | Except.error e => Except.error e
    | Except.ok np =>
      match s.containerDetails with
      | some cd => Except.ok (NetCall.staticPut cd np)
      | none => Except.error noContainerMsg.data

/-- Embeds `Sandbox.runCommand` down to its `ws.send`: connectivity
guard, null-ws guard, then the correlated
`EvalSmallCodeSnippetInsideContainer` request. -/
def runCommand (s : SandboxState) (_cmd : String) (_args : Option (List String)) :
    Except (List Char) NetCall :=
  if isConnected s = false then Except.error notConnectedMsg.data
  else
    match s.ws with
    | some _ => Except.ok (NetCall.wsSendStart "EvalSmallCodeSnippetInsideContainer")
    | none => Except.error "Not connected".data

/-- Embeds `Sandbox.runStreamingCommand` down to its starting
`ws.send`: connectivity guard, null-ws guard, then the correlated
`RunLongRunningCommand` request. -/
def runStreamingCommand (s : SandboxState) (_cmd : String) (_args : List String) :
    Except (List Char) NetCall :=
  if isConnected s = false then Except.error notConnectedMsg.data
  else
    match s.ws with
    | some _ => Except.ok (NetCall.wsSendStart "RunLongRunningCommand")
    | none => Except.error "Not connected".data

end Sandbox

/-- The parameter type of `exposePort` in src/src/index.ts: the
TypeScript literal-union type `3000 | 1337 | 1338`. -/
inductive AllowedPort where
  | p3000
  | p1337
  | p1338
deriving DecidableEq, Repr

/-- Numeric value of an allowed port. -/
def AllowedPort.toNat : AllowedPort → Nat
  | .p3000 => 3000
  | .p1337 => 1337
  | .p1338 => 1338

/-- Embeds the assignability of a numeric literal to the parameter type
`3000 | 1337 | 1338` of `exposePort`: the compile-time check that
rejects a call with any other port number before the operation (and so
before any network call) can happen. -/
def portOfNat (n : Nat) : Option AllowedPort :=
  if n = 3000 then some AllowedPort.p3000
  else if n = 1337 then some AllowedPort.p1337
  else if n = 1338 then some AllowedPort.p1338
  else none

/-- The public URL template of `exposePort`. -/
def portUrl (cd : ContainerDetails) (port : AllowedPort) : String :=
  "https://" ++ cd.subdomain ++ "-" ++ toString port.toNat ++ ".run-code.com"

/-- Embeds `Sandbox.exposePort` (src/src/index.ts lines 859-872):
connectivity guard, then the deterministic URL string; the body
performs no network call, which is reflected in the result type
carrying no `NetCall`. -/
def Sandbox.exposePort (s : SandboxState) (port : AllowedPort) :
    Except (List Char) String :=
  if Sandbox.isConnected s = false then Except.error notConnectedMsg.data
  else
    match s.containerDetails with
    | some cd => Except.ok (portUrl cd port)
    | none => Except.error notConnectedMsg.data

/-! ## Base64URL codec (src/src/index.ts lines 29-51)

Strings are modelled by their UTF-8 byte sequences (`Buffer.from(str,
'utf-8')` and its inverse), so the codec is defined on lists of bytes;
its text output is a list of characters. -/

/-- The base64 alphabet: index 0-25 map to `A`-`Z`, 26-51 to `a`-`z`,
52-61 to `0`-`9`, 62 to `+` and 63 to `/`. -/
def sextetToChar (n : Nat) : Char :=
  if n < 26 then Char.ofNat (65 + n)
  else if n < 52 then Char.ofNat (97 + (n - 26))
  else if n < 62 then Char.ofNat (48 + (n - 52))
  else if n = 62 then '+'
  else '/'

/-- Inverse of the base64 alphabet. -/
def charToSextet (c : Char) : Option Nat :=
  if c = '+' then some 62
  else if c = '/' then some 63
  else if 'A' ≤ c ∧ c ≤ 'Z' then some (c.toNat - 65)
  else if 'a' ≤ c ∧ c ≤ 'z' then some (26 + (c.toNat - 97))
  else if '0' ≤ c ∧ c ≤ '9' then some (52 + (c.toNat - 48))
  else none

/-- Standard base64 encoding of a byte sequence with `=` padding,
modelling Node's `Buffer.toString('base64')`. -/
def base64EncodeChunks : List Nat → List Char
  | [] => []
  | [a] => [sextetToChar (a / 4), sextetToChar (a % 4 * 16), '=', '=']
  | [a, b] =>
    [sextetToChar (a / 4), sextetToChar (a % 4 * 16 + b / 16),
      sextetToChar (b % 16 * 4), '=']
  | a :: b :: c :: rest =>
    sextetToChar (a / 4) :: sextetToChar (a % 4 * 16 + b / 16) ::
      sextetToChar (b % 16 * 4 + c / 64) :: sextetToChar (c % 64) ::
      base64EncodeChunks rest

/-- Standard base64 decoding of a padded character sequence, modelling
`Buffer.from(str, 'base64')` on well-formed input (the theorems apply
it only to outputs of the encoder; Node's leniency on malformed input
is not exercised). -/
def base64DecodeChunks : List Char → Option (List Nat)
  | [] => some []
  | c1 :: c2 :: c3 :: c4 :: rest =>
    match charToSextet c1, charToSextet c2 with
    | some s1, some s2 =>
      if c3 = '=' ∧ c4 = '=' then
        if rest = [] then some [s1 * 4 + s2 / 16] else none
      else
        match charToSextet c3 with
        | some s3 =>
          if c4 = '=' then
            if rest = [] then some [s1 * 4 + s2 / 16, s2 % 16 * 16 + s3 / 4]
            else none
          else
            match charToSextet c4 with
            | some s4 =>
              (base64DecodeChunks rest).map
                (fun bs => (s1 * 4 + s2 / 16) :: (s2 % 16 * 16 + s3 / 4) ::
                  (s3 % 4 * 64 + s4) :: bs)
            | none => none
        | none => none
    | _, _ => none
  | _ => none

/-- The character substitution of `encodeBase64Url`: `+` to `-` and `/`
to `_`. -/
def urlSafeChar (c : Char) : Char :=
  if c = '+' then '-' else if c = '/' then '_' else c

/-- The inverse substitution of `decodeBase64Url`: `-` to `+` and `_`
to `/`. -/
def unUrlSafeChar (c : Char) : Char :=
  if c = '-' then '+' else if c = '_' then '/' else c

/-- Embeds `encodeBase64Url` (src/src/index.ts lines 29-34): base64
encode, substitute the URL-safe characters, strip the `=` padding. -/
def encodeBase64Url (bytes : List Nat) : List Char :=
  ((base64EncodeChunks bytes).map urlSafeChar).filter (fun c => c != '=')

/-- Embeds the padding loop of `decodeBase64Url`: append `=` until the
length is a multiple of 4. -/
def padBase64 (cs : List Char) : List Char :=
  cs ++ List.replicate ((4 - cs.length % 4) % 4) '='

/-- Embeds `decodeBase64Url` (src/src/index.ts lines 42-51): undo the
URL-safe substitution, re-add padding, base64 decode. -/
def decodeBase64Url (cs : List Char) : Option (List Nat) :=
  base64DecodeChunks (padBase64 (cs.map unUrlSafeChar))

/-! ## Derived notions used by the statements -/

/-- Promise ids of the currently pending requests. -/
def pendingPids (s : WsState) : List Nat := s.pending.map (fun x => x.2.1)

/-- Number of settle attempts emitted for a given promise id. -/
def countSettles (pid : Nat) (acts : List WsAction) : Nat :=
  (acts.filter (fun a =>
    match a with
    | WsAction.settle p _ => p == pid
    | _ => false)).length

/-- Whether an action is a streaming-handler callback for the given
task id. -/
def isTaskAct (taskId : String) : WsAction → Bool
  | WsAction.chunkOut t _ => t == taskId
  | WsAction.chunkErr t _ => t == taskId
  | WsAction.closeCb t _ => t == taskId
  | _ => false

/-- Whether an inbound message is a streaming event for the given task
id. -/
def targetsTask (taskId : String) (m : InMessage) : Prop :=
  match m.payload with
  | InPayload.stream t _ _ => t = taskId
  | _ => False

/-- Whether an inbound message carries an incremental io event. -/
def ioEvent (m : InMessage) : Prop :=
  match m.payload with
  | InPayload.stream _ _ (EventDetails.io _ _) => True
  | _ => False

/-- The callback actions the registered handler receives for one
incremental message of its task (empty for messages that do not target
the task). -/
def ioActsOf (h : TaskHandler) (taskId : String) (m : InMessage) : List WsAction :=
  match m.payload with
  | InPayload.stream t _ (EventDetails.io so se) =>
    if t = taskId then
      (match so with
        | some v => if h.onStdout then [WsAction.chunkOut taskId v] else []
        | none => []) ++
      (match se with
        | some v => if h.onStderr then [WsAction.chunkErr taskId v] else []
        | none => [])
    else []
  | _ => []

/-- The raw messages `send` serializes for a list of payloads, starting
from a given fresh-message-id counter. -/
def rawsFrom (n : Nat) : List (String × String) → List OutMessage
  | [] => []
  | (e, d) :: rest => ⟨n, e, d⟩ :: rawsFrom (n + 1) rest

/-- Per-timer component of the channel invariant: a request timeout
always points back at its own pending entry; a waiter timeout's promise
is never one created by `send`. -/
def timerPidOk (s : WsState) : Nat × TimerKind → Prop
  | (tid, TimerKind.requestTimeout mid pid _) => lookupA s.pending mid = some (pid, tid)
  | (_, TimerKind.waiterTimeout _ pid) => pid < s.nextPid ∧ pid ∉ s.sendPids
  | (_, TimerKind.waiterTimeoutG _ pid) => pid < s.nextPid ∧ pid ∉ s.sendPids

/-- Invariant of reachable channel states, tying the pending map, the
active timers, the waiter map, the settlement record and the id
counters together. -/
structure Inv (s : WsState) : Prop where
  pendKeysNodup : (s.pending.map (fun x => x.1)).Nodup
  pendPidsNodup : (pendingPids s).Nodup
  timerKeysNodup : (s.timers.map (fun x => x.1)).Nodup
  pend : ∀ x ∈ s.pending, x.2.1 < s.nextPid ∧ x.2.1 ∈ s.sendPids ∧
    lookupA s.settled x.2.1 = none ∧ x.2.2 < s.nextTimerId ∧
    (∃ et, lookupA s.timers x.2.2 = some (TimerKind.requestTimeout x.1 x.2.1 et))
  timer : ∀ x ∈ s.timers, x.1 < s.nextTimerId ∧ timerPidOk s x
  wait : ∀ x ∈ s.waiters, x.2.1 < s.nextPid ∧ x.2.1 ∉ s.sendPids ∧
    x.2.2 < s.nextTimerId ∧
    (∀ k, lookupA s.timers x.2.2 = some k →
      k = TimerKind.waiterTimeout x.1 x.2.1 ∨ k = TimerKind.waiterTimeoutG x.1 x.2.1)
  sendAcc : ∀ pid ∈ s.sendPids, pid < s.nextPid ∧
    (pid ∈ pendingPids s ∨ (lookupA s.settled pid).isSome = true)
  pendMid : ∀ x ∈ s.pending, x.1 < s.nextMsgNum
  settledBound : ∀ x ∈ s.settled, x.1 < s.nextPid

/-- Concrete event sequence refuting the stale-timeout part of the
supersession claim on the first/third revisions: connect, register a
waiter for `E` (promise 0, timer 0), register a second waiter for `E`
(promise 1, timer 1; promise 0 is rejected as superseded), let the
superseded waiter's still-scheduled timeout fire, then deliver a
matching `E` event. -/
def c2Trace : List WsEvent :=
  [WsEvent.opConnect,
   WsEvent.opWaitForEvent "E" false,
   WsEvent.opWaitForEvent "E" false,
   WsEvent.fireTimer 0,
   WsEvent.inbound ⟨99, InPayload.plain "E" "d"⟩]

/-- A connected channel state with a streaming handler (all three
callbacks provided) registered for task `T`. -/
def c4State : WsState :=
  { SandboxWebSocket.initState with
      wsPresent := true
      connectionState := ConnState.connected
      handlers := [("T", ⟨true, true, true⟩)] }

/-- A close event for task `T` with a null exit code and a non-null
error string, as permitted by the protocol type of
`StreamLongRunningTaskEvent`. -/
def c4CloseMsg : InMessage :=
  ⟨7, InPayload.stream "T" 1 (EventDetails.close none (some "boom"))⟩

/-- A connected orchestrator state used by the witnesses. -/
def connectedSandbox : SandboxState :=
  ⟨some "sess", some "snip", some ⟨"abc123", "tok"⟩, some true⟩

/-- A channel state used by the teardown witness: one pending request
(promise 0, timer 0), one waiter (promise 1, timer 1), one queued
message. -/
def c3State : WsState :=
  { SandboxWebSocket.initState with
      wsPresent := true
      connectionState := ConnState.connected
      pending := [(0, 0, 0)]
      waiters := [("E", 1, 1)]
      timers := [(0, TimerKind.requestTimeout 0 0 "HealthPing"),
                 (1, TimerKind.waiterTimeout "E" 1)]
      messagesData := [⟨5, "HealthPing", ""⟩]
      sendPids := [0]
      nextPid := 2
      nextTimerId := 2
      nextMsgNum := 1 }

/-! ## Basic lemmas about the map and settlement primitives -/

theorem lookupA_cons {κ α : Type} [DecidableEq κ] (k' : κ) (v : α) (l : List (κ × α)) (k : κ) :
    lookupA ((k', v) :: l) k = if k' = k then some v else lookupA l k := rfl

theorem lookupA_append_some {κ α : Type} [DecidableEq κ] {l l' : List (κ × α)} {k : κ}
    {v : α} (h : lookupA l k = some v) : lookupA (l ++ l') k = some v := by
  induction l with
  | nil => simp [lookupA] at h
  | cons x xs ih =>
    rw [List.cons_append, lookupA_cons] at *
    split at h
    · simpa [*] using h
    · simp [*, ih h]

theorem lookupA_append_none {κ α : Type} [DecidableEq κ] {l : List (κ × α)} {k : κ}
    (l' : List (κ × α)) (h : lookupA l k = none) :
    lookupA (l ++ l') k = lookupA l' k := by
  induction l with
  | nil => simp
  | cons x xs ih =>
    rw [lookupA_cons] at h
    split at h
    · exact absurd h (by simp)
    · rw [List.cons_append, lookupA_cons, if_neg (by assumption)]
      exact ih h

theorem lookupA_some_mem {κ α : Type} [DecidableEq κ] {l : List (κ × α)} {k : κ} {v : α}
    (h : lookupA l k = some v) : (k, v) ∈ l := by
  induction l with
  | nil => simp [lookupA] at h
  | cons x xs ih =>
    rw [lookupA_cons] at h
    split at h
    · simp only [Option.some.injEq] at h
      subst h
      simpa [← (by assumption : x.1 = k)] using List.mem_cons_self _ _
    · exact List.mem_cons_of_mem _ (ih h)

theorem lookupA_isSome_of_mem {κ α : Type} [DecidableEq κ] {l : List (κ × α)} {x : κ × α}
    (h : x ∈ l) : (lookupA l x.1).isSome = true := by
  induction l with
  | nil => simp at h
  | cons y ys ih =>
    rw [lookupA_cons]
    rcases List.mem_cons.1 h with rfl | h2
    · simp
    · split
      · simp
      · exact ih h2

theorem lookupA_none_not_mem {κ α : Type} [DecidableEq κ] {l : List (κ × α)} {k : κ}
    (h : lookupA l k = none) {v : α} : (k, v) ∉ l := by
  intro hm
  have := lookupA_isSome_of_mem hm
  simp [h] at this

theorem lookupA_none_of_not_mem_keys {κ α : Type} [DecidableEq κ] {l : List (κ × α)}
    {k : κ} (h : k ∉ l.map (fun x => x.1)) : lookupA l k = none := by
  induction l with
  | nil => rfl
  | cons x xs ih =>
    simp only [List.map_cons, List.mem_cons] at h
    push_neg at h
    rw [lookupA_cons, if_neg (fun he => h.1 he.symm)]
    exact ih h.2

theorem eraseA_sublist {κ α : Type} [DecidableEq κ] (l : List (κ × α)) (k : κ) :
    (eraseA l k).Sublist l := by
  induction l with
  | nil => simp [eraseA]
  | cons x xs ih =>
    rw [eraseA]
    split
    · exact List.sublist_cons_self _ _
    · exact ih.cons₂ _

theorem mem_of_mem_eraseA {κ α : Type} [DecidableEq κ] {l : List (κ × α)} {k : κ}
    {x : κ × α} (h : x ∈ eraseA l k) : x ∈ l :=
  (eraseA_sublist l k).mem h

theorem mem_eraseA_of_mem {κ α : Type} [DecidableEq κ] {l : List (κ × α)} {k : κ}
    {x : κ × α} (hx : x ∈ l) (hk : x.1 ≠ k) : x ∈ eraseA l k := by
  induction l with
  | nil => simp at hx
  | cons y ys ih =>
    rw [eraseA]
    rcases List.mem_cons.1 hx with rfl | h2
    · rw [if_neg (by simpa using hk)]
      exact List.mem_cons_self _ _
    · split
      · exact h2
      · exact List.mem_cons_of_mem _ (ih h2)

theorem lookupA_eraseA_ne {κ α : Type} [DecidableEq κ] {l : List (κ × α)} {k' k : κ}
    (h : k' ≠ k) : lookupA (eraseA l k') k = lookupA l k := by
  induction l with
  | nil => rfl
  | cons x xs ih =>
    rw [eraseA]
    split
    · rw [lookupA_cons, if_neg]
      intro he
      exact h (by cc)
    · rw [lookupA_cons, lookupA_cons, ih]

theorem lookupA_eraseA_self {κ α : Type} [DecidableEq κ] {l : List (κ × α)} {k : κ}
    (h : (l.map (fun x => x.1)).Nodup) : lookupA (eraseA l k) k = none := by
  induction l with
  | nil => rfl
  | cons x xs ih =>
    simp only [List.map_cons, List.nodup_cons] at h
    rw [eraseA]
    split
    · apply lookupA_none_of_not_mem_keys
      intro hm
      exact h.1 (by simpa [(by assumption : x.1 = k)] using hm)
    · rw [lookupA_cons, if_neg (by assumption)]
      exact ih h.2

theorem setA_of_not_mem_keys {κ α : Type} [DecidableEq κ] {l : List (κ × α)} {k : κ}
    (v : α) (h : k ∉ l.map (fun x => x.1)) : setA l k v = l ++ [(k, v)] := by
  induction l with
  | nil => rfl
  | cons x xs ih =>
    simp only [List.map_cons, List.mem_cons] at h
    push_neg at h
    rw [setA, if_neg (fun he => h.1 he.symm), List.cons_append, ih h.2]

theorem lookupA_settleFirst_of_none {st : List (Nat × Outcome)} {pid : Nat}
    (o : Outcome) (h : lookupA st pid = none) :
    lookupA (settleFirst st pid o) pid = some o := by
  rw [settleFirst, if_neg (by simp [h])]
  rw [lookupA_append_none _ h, lookupA_cons, if_pos rfl]

theorem lookupA_settleFirst_of_some {st : List (Nat × Outcome)} {pid : Nat} {o' : Outcome}
    (pid2 : Nat) (o : Outcome) (h : lookupA st pid = some o') :
    lookupA (settleFirst st pid2 o) pid = some o' := by
  rw [settleFirst]
  split
  · exact h
  · exact lookupA_append_some h

theorem lookupA_settleFirst_ne {st : List (Nat × Outcome)} {pid2 pid : Nat}
    (o : Outcome) (h : pid2 ≠ pid) :
    lookupA (settleFirst st pid2 o) pid = lookupA st pid := by
  rw [settleFirst]
  split
  · rfl
  · cases hl : lookupA st pid with
    | none => rw [lookupA_append_none _ hl, lookupA_cons, if_neg h]; rfl
    | some v => exact lookupA_append_some hl

theorem rejectEntries_acts (st : List (Nat × Outcome)) (tm : List (Nat × TimerKind))
    (entries : List (Nat × Nat)) :
    (SandboxWebSocket.rejectEntries st tm entries).2.2 =
      entries.map (fun e => WsAction.settle e.1 (Outcome.rejected wsClosedMsg)) := by
  induction entries generalizing st tm with
  | nil => rfl
  | cons e rest ih => simp [SandboxWebSocket.rejectEntries, ih]

theorem rejectEntries_settled_of_some {st : List (Nat × Outcome)} {pid : Nat}
    {o : Outcome} (tm : List (Nat × TimerKind)) (entries : List (Nat × Nat))
    (h : lookupA st pid = some o) :
    lookupA (SandboxWebSocket.rejectEntries st tm entries).1 pid = some o := by
  induction entries generalizing st tm with
  | nil => exact h
  | cons e rest ih =>
    rw [SandboxWebSocket.rejectEntries]
    by_cases he : e.1 = pid
    · subst he
      exact ih _ (lookupA_settleFirst_of_some _ _ h)
    · exact ih _ (by rw [lookupA_settleFirst_ne _ he]; exact h)

theorem rejectEntries_settled_of_mem {st : List (Nat × Outcome)} {pid : Nat}
    (tm : List (Nat × TimerKind)) (entries : List (Nat × Nat))
    (h : lookupA st pid = none) (hm : pid ∈ entries.map (fun x => x.1)) :
    lookupA (SandboxWebSocket.rejectEntries st tm entries).1 pid =
      some (Outcome.rejected wsClosedMsg) := by
  induction entries generalizing st tm with
  | nil => simp at hm
  | cons e rest ih =>
    rw [SandboxWebSocket.rejectEntries]
    by_cases he : e.1 = pid
    · subst he
      exact rejectEntries_settled_of_some _ _ (lookupA_settleFirst_of_none _ h)
    · simp only [List.map_cons, List.mem_cons] at hm
      rcases hm with rfl | hm
      · exact absurd rfl he
      · exact ih _ (by rw [lookupA_settleFirst_ne _ he]; exact h) hm

theorem rejectEntries_settled_of_not_mem {st : List (Nat × Outcome)} {pid : Nat}
    (tm : List (Nat × TimerKind)) (entries : List (Nat × Nat))
    (h : lookupA st pid = none) (hm : pid ∉ entries.map (fun x => x.1)) :
    lookupA (SandboxWebSocket.rejectEntries st tm entries).1 pid = none := by
  induction entries generalizing st tm with
  | nil => exact h
  | cons e rest ih =>
    simp only [List.map_cons, List.mem_cons] at hm
    push_neg at hm
    rw [SandboxWebSocket.rejectEntries]
    exact ih _ (by rw [lookupA_settleFirst_ne _ (fun he => hm.1 he.symm)]; exact h)
      (by simpa using hm.2)

theorem mem_rejectEntries_timers {st : List (Nat × Outcome)} {tm : List (Nat × TimerKind)}
    {entries : List (Nat × Nat)} {x : Nat × TimerKind}
    (h : x ∈ (SandboxWebSocket.rejectEntries st tm entries).2.1) : x ∈ tm := by
  induction entries generalizing st tm with
  | nil => exact h
  | cons e rest ih =>
    rw [SandboxWebSocket.rejectEntries] at h
    exact mem_of_mem_eraseA (ih h)

theorem lookupA_setA_self {κ α : Type} [DecidableEq κ] (l : List (κ × α)) (k : κ) (v : α) :
    lookupA (setA l k v) k = some v := by
  induction l with
  | nil => simp [setA, lookupA]
  | cons x xs ih =>
    rw [setA]
    split
    · rw [lookupA_cons, if_pos rfl]
    · rw [lookupA_cons, if_neg (by assumption)]
      exact ih

theorem lookupA_setA_ne {κ α : Type} [DecidableEq κ] {l : List (κ × α)} {k' k : κ}
    (v : α) (h : k' ≠ k) : lookupA (setA l k' v) k = lookupA l k := by
  induction l with
  | nil => simp [setA, lookupA_cons, if_neg h]
  | cons x xs ih =>
    rw [setA]
    split
    · rw [lookupA_cons, lookupA_cons, if_neg h, if_neg]
      intro he
      exact h (by cc)
    · rw [lookupA_cons, lookupA_cons, ih]

theorem lookupA_none_of_bound {α : Type} {st : List (Nat × α)} {n : Nat}
    (h : ∀ x ∈ st, x.1 < n) : lookupA st n = none := by
  cases hl : lookupA st n with
  | none => rfl
  | some v =>
    have := h _ (lookupA_some_mem hl)
    omega

theorem mem_settleFirst {st : List (Nat × Outcome)} {pid : Nat} {o : Outcome}
    {x : Nat × Outcome} (h : x ∈ settleFirst st pid o) : x ∈ st ∨ x = (pid, o) := by
  rw [settleFirst] at h
  split at h
  · exact Or.inl h
  · rcases List.mem_append.1 h with h2 | h2
    · exact Or.inl h2
    · exact Or.inr (by simpa using h2)

theorem mem_rejectEntries_settled {st : List (Nat × Outcome)}
    {tm : List (Nat × TimerKind)} {entries : List (Nat × Nat)} {x : Nat × Outcome}
    (h : x ∈ (SandboxWebSocket.rejectEntries st tm entries).1) :
    x ∈ st ∨ x.1 ∈ entries.map (fun e => e.1) := by
  induction entries generalizing st tm with
  | nil => exact Or.inl h
  | cons e rest ih =>
    rw [SandboxWebSocket.rejectEntries] at h
    rcases ih h with h2 | h2
    · rcases mem_settleFirst h2 with h3 | h3
      · exact Or.inl h3
      · right
        simp [h3]
    · right
      simp [h2]

theorem rejectEntries_timers_sublist (st : List (Nat × Outcome))
    (tm : List (Nat × TimerKind)) (entries : List (Nat × Nat)) :
    (SandboxWebSocket.rejectEntries st tm entries).2.1.Sublist tm := by
  induction entries generalizing st tm with
  | nil => exact List.Sublist.refl _
  | cons e rest ih =>
    rw [SandboxWebSocket.rejectEntries]
    exact (ih _ _).trans (eraseA_sublist _ _)

theorem lookupA_none_eraseA {κ α : Type} [DecidableEq κ] {l : List (κ × α)}
    {key : κ} (k : κ) (h : lookupA l key = none) : lookupA (eraseA l k) key = none := by
  cases hl : lookupA (eraseA l k) key with
  | none => rfl
  | some v =>
    have hmem := (eraseA_sublist l k).mem (lookupA_some_mem hl)
    have := lookupA_isSome_of_mem hmem
    simp only [h] at this
    cases this

theorem rejectEntries_timers_none {tt : Nat} :
    ∀ (entries : List (Nat × Nat)) (st : List (Nat × Outcome))
      (tm : List (Nat × TimerKind)), lookupA tm tt = none →
    lookupA (SandboxWebSocket.rejectEntries st tm entries).2.1 tt = none := by
  intro entries
  induction entries with
  | nil =>
    intro st tm h
    exact h
  | cons e rest ih =>
    intro st tm h
    rw [SandboxWebSocket.rejectEntries]
    exact ih _ _ (lookupA_none_eraseA _ h)

theorem mem_eraseA_elim {κ α : Type} [DecidableEq κ] {l : List (κ × α)} {k : κ}
    {x : κ × α} (hnd : (l.map (fun y => y.1)).Nodup) (h : x ∈ eraseA l k) :
    x ∈ l ∧ x.1 ≠ k := by
  induction l with
  | nil => simp [eraseA] at h
  | cons y ys ih =>
    simp only [List.map_cons, List.nodup_cons] at hnd
    rw [eraseA] at h
    split at h
    · refine ⟨List.mem_cons_of_mem _ h, ?_⟩
      intro hk
      exact hnd.1 (by
        rw [(by assumption : y.1 = k), ← hk]
        exact List.mem_map.2 ⟨x, h, rfl⟩)
    · rcases List.mem_cons.1 h with rfl | h2
      · exact ⟨List.mem_cons_self _ _, fun hk => (by assumption : ¬ y.1 = k) hk⟩
      · have := ih hnd.2 h2
        exact ⟨List.mem_cons_of_mem _ this.1, this.2⟩

theorem lookupA_eraseA_some {κ α : Type} [DecidableEq κ] {l : List (κ × α)}
    {k' key : κ} {v : α} (hnd : (l.map (fun y => y.1)).Nodup)
    (h : lookupA (eraseA l k') key = some v) : lookupA l key = some v := by
  by_cases hk : k' = key
  · subst hk
    rw [lookupA_eraseA_self hnd] at h
    cases h
  · rw [lookupA_eraseA_ne hk] at h
    exact h

theorem mem_setA {κ α : Type} [DecidableEq κ] {l : List (κ × α)} {k : κ} {v : α}
    {x : κ × α} (h : x ∈ setA l k v) : x ∈ l ∨ x = (k, v) := by
  induction l with
  | nil => simpa [setA] using h
  | cons y ys ih =>
    rw [setA] at h
    split at h
    · rcases List.mem_cons.1 h with rfl | h2
      · exact Or.inr rfl
      · exact Or.inl (List.mem_cons_of_mem _ h2)
    · rcases List.mem_cons.1 h with rfl | h2
      · exact Or.inl (List.mem_cons_self _ _)
      · rcases ih h2 with h3 | h3
        · exact Or.inl (List.mem_cons_of_mem _ h3)
        · exact Or.inr h3

theorem mem_keys_setA {κ α : Type} [DecidableEq κ] {l : List (κ × α)} {k : κ} {v : α}
    {k2 : κ} (h : k2 ∈ (setA l k v).map (fun y => y.1)) :
    k2 ∈ l.map (fun y => y.1) ∨ k2 = k := by
  rcases List.mem_map.1 h with ⟨x, hx, rfl⟩
  rcases mem_setA hx with h2 | h2
  · exact Or.inl (List.mem_map.2 ⟨x, h2, rfl⟩)
  · simp [h2]

theorem setA_keys_nodup {κ α : Type} [DecidableEq κ] {l : List (κ × α)} (k : κ) (v : α)
    (hnd : (l.map (fun y => y.1)).Nodup) : ((setA l k v).map (fun y => y.1)).Nodup := by
  induction l with
  | nil => simp [setA]
  | cons y ys ih =>
    simp only [List.map_cons, List.nodup_cons] at hnd
    rw [setA]
    split
    · simp only [List.map_cons, List.nodup_cons]
      exact ⟨by rw [← (by assumption : y.1 = k)]; exact hnd.1, hnd.2⟩
    · simp only [List.map_cons, List.nodup_cons]
      refine ⟨?_, ih hnd.2⟩
      intro hm
      rcases mem_keys_setA hm with h2 | h2
      · exact hnd.1 h2
      · exact (by assumption : ¬ y.1 = k) h2

theorem rejectEntries_timers_erased {tt : Nat} :
    ∀ (entries : List (Nat × Nat)) (st : List (Nat × Outcome))
      (tm : List (Nat × TimerKind)), (tm.map (fun y => y.1)).Nodup →
      tt ∈ entries.map (fun e => e.2) →
    lookupA (SandboxWebSocket.rejectEntries st tm entries).2.1 tt = none := by
  intro entries
  induction entries with
  | nil =>
    intro st tm _ hm
    simp at hm
  | cons e rest ih =>
    intro st tm hnd hm
    rw [SandboxWebSocket.rejectEntries]
    by_cases he : e.2 = tt
    · subst he
      exact rejectEntries_timers_none _ _ _ (lookupA_eraseA_self hnd)
    · simp only [List.map_cons, List.mem_cons] at hm
      rcases hm with rfl | hm
      · exact absurd rfl he
      · exact ih _ _ (hnd.sublist ((eraseA_sublist tm e.2).map _)) hm

/-! ## Teardown lemmas -/

theorem cleanDirty_state (s : WsState) :
    (SandboxWebSocket.cleanDirtyWebSocketIfPresent s).1.wsPresent = false ∧
    (SandboxWebSocket.cleanDirtyWebSocketIfPresent s).1.pending = [] ∧
    (SandboxWebSocket.cleanDirtyWebSocketIfPresent s).1.waiters = [] ∧
    (SandboxWebSocket.cleanDirtyWebSocketIfPresent s).1.messagesData = [] ∧
    (SandboxWebSocket.cleanDirtyWebSocketIfPresent s).1.connectionState = s.connectionState ∧
    (SandboxWebSocket.cleanDirtyWebSocketIfPresent s).1.shouldAutoReconnect =
      s.shouldAutoReconnect := by
  simp [SandboxWebSocket.cleanDirtyWebSocketIfPresent]

theorem cleanDirty_acts (s : WsState) :
    (SandboxWebSocket.cleanDirtyWebSocketIfPresent s).2 =
      (if s.wsPresent then [WsAction.closeTransport] else []) ++
      s.pending.map (fun x => WsAction.settle x.2.1 (Outcome.rejected wsClosedMsg)) ++
      s.waiters.map (fun x => WsAction.settle x.2.1 (Outcome.rejected wsClosedMsg)) := by
  simp [SandboxWebSocket.cleanDirtyWebSocketIfPresent, rejectEntries_acts,
    List.map_map, Function.comp_def]

theorem cleanDirty_settled_of_some {s : WsState} {pid : Nat} {o : Outcome}
    (h : lookupA s.settled pid = some o) :
    lookupA (SandboxWebSocket.cleanDirtyWebSocketIfPresent s).1.settled pid = some o := by
  simp only [SandboxWebSocket.cleanDirtyWebSocketIfPresent]
  exact rejectEntries_settled_of_some _ _ (rejectEntries_settled_of_some _ _ h)

theorem cleanDirty_settles_pending {s : WsState} {x : Nat × Nat × Nat}
    (hx : x ∈ s.pending) (hnone : lookupA s.settled x.2.1 = none) :
    lookupA (SandboxWebSocket.cleanDirtyWebSocketIfPresent s).1.settled x.2.1 =
      some (Outcome.rejected wsClosedMsg) := by
  simp only [SandboxWebSocket.cleanDirtyWebSocketIfPresent]
  apply rejectEntries_settled_of_some
  apply rejectEntries_settled_of_mem _ _ hnone
  simp only [List.map_map]
  exact List.mem_map.2 ⟨x, hx, rfl⟩

theorem cleanDirty_settles_waiters {s : WsState} {x : String × Nat × Nat}
    (hx : x ∈ s.waiters) (hnone : lookupA s.settled x.2.1 = none) :
    lookupA (SandboxWebSocket.cleanDirtyWebSocketIfPresent s).1.settled x.2.1 =
      some (Outcome.rejected wsClosedMsg) := by
  simp only [SandboxWebSocket.cleanDirtyWebSocketIfPresent]
  by_cases hmem : x.2.1 ∈
      (s.pending.map (fun y => y.2)).map (fun y => y.1)
  · apply rejectEntries_settled_of_some
    exact rejectEntries_settled_of_mem _ _ hnone hmem
  · apply rejectEntries_settled_of_mem
    · exact rejectEntries_settled_of_not_mem _ _ hnone hmem
    · simp only [List.map_map]
      exact List.mem_map.2 ⟨x, hx, rfl⟩

/-! ## Settlement permanence -/

theorem step_settled_mono {s : WsState} {pid : Nat} {o : Outcome} (e : WsEvent)
    (h : lookupA s.settled pid = some o) :
    lookupA (step s e).1.settled pid = some o := by
  cases e with
  | opSend et d =>
    simp only [step, SandboxWebSocket.send, SandboxWebSocket.sendSingleMessage]
    split <;> exact h
  | opWaitForEvent et g =>
    simp only [step, SandboxWebSocket.waitForNextFutureWebSocketEvent]
    cases lookupA s.waiters et with
    | none => exact h
    | some pe => exact lookupA_settleFirst_of_some _ _ h
  | opAddHandler t th => exact h
  | opDisconnect => exact cleanDirty_settled_of_some h
  | opDisconnectV3 => exact cleanDirty_settled_of_some h
  | opDisableAutoReconnect => exact h
  | opConnect =>
    simp only [step, SandboxWebSocket.connect]
    split <;> exact h
  | transportOpen =>
    simp only [step]
    split <;> exact h
  | transportClose =>
    simp only [step]
    split
    · exact cleanDirty_settled_of_some h
    · exact h
  | inbound m =>
    simp only [step]
    split
    · rw [SandboxWebSocket.onMessage]
      rcases m.payload with ⟨et, d⟩ | ⟨t, pr, details⟩
      · simp only
        cases lookupA s.pending m.messageId with
        | some pt => exact lookupA_settleFirst_of_some _ _ h
        | none =>
          simp only
          cases lookupA s.waiters (InPayload.plain et d).eventType with
          | some pt => exact lookupA_settleFirst_of_some _ _ h
          | none => exact h
      · simp only
        cases lookupA s.handlers t with
        | none => exact h
        | some hh => cases details <;> exact h
    · exact h
  | fireTimer tid =>
    simp only [step, SandboxWebSocket.fireTimer]
    cases htm : lookupA s.timers tid with
    | none => exact h
    | some kind =>
      cases kind with
      | requestTimeout mid p et => exact lookupA_settleFirst_of_some _ _ h
      | waiterTimeout et p => exact lookupA_settleFirst_of_some _ _ h
      | waiterTimeoutG et p =>
        simp only
        cases lookupA s.waiters et with
        | none => exact h
        | some pt =>
          dsimp only
          by_cases hp : pt.1 = p
          · rw [if_pos hp]
            exact lookupA_settleFirst_of_some _ _ h
          · rw [if_neg hp]
            exact h

theorem run_settled_mono {pid : Nat} {o : Outcome} (tr : List WsEvent) (s : WsState)
    (h : lookupA s.settled pid = some o) :
    lookupA (run s tr).1.settled pid = some o := by
  induction tr generalizing s with
  | nil => exact h
  | cons e es ih => exact ih _ (step_settled_mono e h)

/-! ## Path normalization lemmas -/

theorem isPrefixOf_append_self (l p : List Char) : (l.isPrefixOf (l ++ p)) = true := by
  induction l with
  | nil => simp [List.isPrefixOf]
  | cons c cs ih => simp [List.isPrefixOf, ih]

theorem tilde_isPrefixOf_cons (p : List Char) :
    (tildeChars.isPrefixOf ('~' :: p)) = true := by
  simp [tildeChars, List.isPrefixOf]

theorem tilde_not_prefixOf_home (p : List Char) :
    (tildeChars.isPrefixOf (homeDamner ++ p)) = false := by
  simp [tildeChars, homeDamner, List.isPrefixOf]

theorem tilde_not_prefixOf_homeCode (p : List Char) :
    (tildeChars.isPrefixOf (homeDamnerCode ++ p)) = false := by
  simp [tildeChars, homeDamnerCode, List.isPrefixOf]

theorem normalizePath_tilde (p : List Char) :
    normalizePath ('~' :: p) = Except.ok (homeDamner ++ p) := by
  simp [normalizePath, tilde_isPrefixOf_cons]

theorem normalizePath_home (p : List Char) :
    normalizePath (homeDamner ++ p) = Except.ok (homeDamner ++ p) := by
  simp [normalizePath, tilde_not_prefixOf_home, isPrefixOf_append_self]

theorem normalizePath_bad (p : List Char) (h1 : tildeChars.isPrefixOf p = false)
    (h2 : homeDamner.isPrefixOf p = false) :
    normalizePath p = Except.error (invalidPathMsg p) := by
  simp [normalizePath, h1, h2]

/-! ## Claim theorems -/

/-- C2 counterexample: in the first/third revisions the superseded
waiter's still-scheduled timeout is not cleared, and when it fires it
deletes whatever waiter is registered for the event type.  After
`c2Trace` (register waiter 0 for `E`, supersede it with waiter 1, fire
waiter 0's stale timer, deliver a matching `E` message) the newer
waiter's promise 1 is unresolved and not even attempted (count 0), its
registration is gone, yet its own timeout (timer 1) never elapsed —
refuting the claim that the newer waiter stays registered and
resolvable until its own timeout regardless of the superseded waiter's
timeout schedule. -/
theorem c2_counterexample :
    lookupA (run SandboxWebSocket.initState c2Trace).1.settled 1 = none ∧
    lookupA (run SandboxWebSocket.initState c2Trace).1.waiters "E" = none ∧
    lookupA (run SandboxWebSocket.initState c2Trace).1.timers 1 =
      some (TimerKind.waiterTimeout "E" 1) ∧
    countSettles 1 (run SandboxWebSocket.initState c2Trace).2 = 0 ∧
    lookupA (run SandboxWebSocket.initState c2Trace).1.settled 0 =
      some (Outcome.rejected replacedMsg) := by
  decide

/-- C2 (amended): registering a waiter over an existing one settles the
older waiter with the superseded rejection at once and installs the
newer waiter; with the second revision's guarded timeout callback, the
superseded waiter's stale timeout is a no-op whenever its promise is no
longer the registered one, and a matching inbound event (not claimed by
a pending request) resolves exactly the registered waiter and
deregisters it. -/
theorem c2_waiter_supersession :
    (∀ (s : WsState) (et : String) (w : Nat × Nat) (g : Bool),
      lookupA s.waiters et = some w →
      (step s (WsEvent.opWaitForEvent et g)).2 =
        [WsAction.settle w.1 (Outcome.rejected replacedMsg)] ∧
      (lookupA s.settled w.1 = none →
        lookupA (step s (WsEvent.opWaitForEvent et g)).1.settled w.1 =
          some (Outcome.rejected replacedMsg)) ∧
      lookupA (step s (WsEvent.opWaitForEvent et g)).1.waiters et =
        some (s.nextPid, s.nextTimerId)) ∧
    (∀ (s : WsState) (tid : Nat) (et : String) (pid : Nat) (w : Nat × Nat),
      lookupA s.timers tid = some (TimerKind.waiterTimeoutG et pid) →
      lookupA s.waiters et = some w → w.1 ≠ pid →
      step s (WsEvent.fireTimer tid) = ({ s with timers := eraseA s.timers tid }, [])) ∧
    (∀ (s : WsState) (tid : Nat) (et : String) (pid : Nat),
      lookupA s.timers tid = some (TimerKind.waiterTimeoutG et pid) →
      lookupA s.waiters et = none →
      step s (WsEvent.fireTimer tid) = ({ s with timers := eraseA s.timers tid }, [])) ∧
    (∀ (s : WsState) (m : InMessage) (et d : String) (w : Nat × Nat),
      s.wsPresent = true → m.payload = InPayload.plain et d →
      lookupA s.pending m.messageId = none →
      lookupA s.waiters et = some w →
      (s.waiters.map (fun x => x.1)).Nodup →
      (step s (WsEvent.inbound m)).2 = [WsAction.settle w.1 (Outcome.resolved m.payload)] ∧
      (lookupA s.settled w.1 = none →
        lookupA (step s (WsEvent.inbound m)).1.settled w.1 =
          some (Outcome.resolved m.payload)) ∧
      lookupA (step s (WsEvent.inbound m)).1.waiters et = none) := by
  refine ⟨?_, ?_, ?_, ?_⟩
  · intro s et w g hw
    refine ⟨?_, ?_, ?_⟩
    · simp [step, SandboxWebSocket.waitForNextFutureWebSocketEvent, hw]
    · intro hnone
      simp only [step, SandboxWebSocket.waitForNextFutureWebSocketEvent, hw]
      exact lookupA_settleFirst_of_none _ hnone
    · simp only [step, SandboxWebSocket.waitForNextFutureWebSocketEvent, hw]
      exact lookupA_setA_self _ _ _
  · intro s tid et pid w htm hw hne
    simp [step, SandboxWebSocket.fireTimer, htm, hw, hne]
  · intro s tid et pid htm hw
    simp [step, SandboxWebSocket.fireTimer, htm, hw]
  · intro s m et d w hws hpay hpend hw hnd
    have hev : (InPayload.plain et d).eventType = et := rfl
    simp only [step, hws, if_pos, SandboxWebSocket.onMessage, hpay, hpend, hev, hw]
    exact ⟨trivial, fun hnone => lookupA_settleFirst_of_none _ hnone,
      lookupA_eraseA_self hnd⟩

/-- Witness for C2's amended theorem: superseding a concrete waiter
(promise 0) with a new guarded waiter (promise 1), whose stale guarded
counterpart would be inert, then resolving the new waiter with a
matching event. -/
theorem c2_witness :
    (step { SandboxWebSocket.initState with
        wsPresent := true
        waiters := [("E", 0, 0)]
        timers := [(0, TimerKind.waiterTimeoutG "E" 0)]
        nextPid := 1
        nextTimerId := 1 } (WsEvent.opWaitForEvent "E" true)).2 =
      [WsAction.settle 0 (Outcome.rejected replacedMsg)] ∧
    lookupA (step { SandboxWebSocket.initState with
        wsPresent := true
        waiters := [("E", 0, 0)]
        timers := [(0, TimerKind.waiterTimeoutG "E" 0)]
        nextPid := 1
        nextTimerId := 1 } (WsEvent.opWaitForEvent "E" true)).1.waiters "E" =
      some (1, 1) := by
  have h := c2_waiter_supersession.1 { SandboxWebSocket.initState with
      wsPresent := true
      waiters := [("E", 0, 0)]
      timers := [(0, TimerKind.waiterTimeoutG "E" 0)]
      nextPid := 1
      nextTimerId := 1 } "E" (0, 0) true (by decide)
  exact ⟨h.1, h.2.2⟩

/-- C3 counterexample: the third revision's `disconnect` (websocket.ts
lines 947-949) does not disable auto-reconnect — on the initial state
(auto-reconnect enabled) the flag is still enabled afterwards, refuting
the claim that the channel's disconnect operation disables
auto-reconnect in any state. -/
theorem c3_counterexample :
    (step SandboxWebSocket.initState WsEvent.opDisconnectV3).1.shouldAutoReconnect = true := by
  decide

/-- C3 (amended): the first revision's `disconnect` disables
auto-reconnect, drops the socket (closing the physical connection),
rejects every outstanding pending request and registered event waiter
with the closed error, and clears the outbound queue; the third
revision's `disconnect` performs the identical teardown except that it
leaves the auto-reconnect flag unchanged (the orchestrator disables it
separately via `disableWsAutoReconnect` before calling it).  Settled
outcomes are permanent, so none of the rejected futures can resolve
under any continuation, whatever messages are later delivered. -/
theorem c3_disconnect_teardown :
    ∀ s : WsState,
      (step s WsEvent.opDisconnect).1.shouldAutoReconnect = false ∧
      (step s WsEvent.opDisconnect).1.wsPresent = false ∧
      (step s WsEvent.opDisconnect).1.pending = [] ∧
      (step s WsEvent.opDisconnect).1.waiters = [] ∧
      (step s WsEvent.opDisconnect).1.messagesData = [] ∧
      (s.wsPresent = true → WsAction.closeTransport ∈ (step s WsEvent.opDisconnect).2) ∧
      (∀ x ∈ s.pending,
        WsAction.settle x.2.1 (Outcome.rejected wsClosedMsg) ∈ (step s WsEvent.opDisconnect).2 ∧
        (lookupA s.settled x.2.1 = none →
          lookupA (step s WsEvent.opDisconnect).1.settled x.2.1 =
            some (Outcome.rejected wsClosedMsg))) ∧
      (∀ x ∈ s.waiters,
        WsAction.settle x.2.1 (Outcome.rejected wsClosedMsg) ∈ (step s WsEvent.opDisconnect).2 ∧
        (lookupA s.settled x.2.1 = none →
          lookupA (step s WsEvent.opDisconnect).1.settled x.2.1 =
            some (Outcome.rejected wsClosedMsg))) ∧
      (step s WsEvent.opDisconnectV3).1 =
        { (step s WsEvent.opDisconnect).1 with shouldAutoReconnect := s.shouldAutoReconnect } ∧
      (step s WsEvent.opDisconnectV3).2 = (step s WsEvent.opDisconnect).2 ∧
      (∀ (tr : List WsEvent) (pid : Nat) (o : Outcome),
        lookupA (step s WsEvent.opDisconnect).1.settled pid = some o →
        lookupA (run (step s WsEvent.opDisconnect).1 tr).1.settled pid = some o) ∧
      (∀ (tr : List WsEvent) (pid : Nat) (o : Outcome),
        lookupA (step s WsEvent.opDisconnectV3).1.settled pid = some o →
        lookupA (run (step s WsEvent.opDisconnectV3).1 tr).1.settled pid = some o) := by
  intro s
  have hv1 : step s WsEvent.opDisconnect =
      SandboxWebSocket.cleanDirtyWebSocketIfPresent { s with shouldAutoReconnect := false } := rfl
  have hv3 : step s WsEvent.opDisconnectV3 =
      SandboxWebSocket.cleanDirtyWebSocketIfPresent s := rfl
  have hst := cleanDirty_state { s with shouldAutoReconnect := false }
  have hacts := cleanDirty_acts { s with shouldAutoReconnect := false }
  refine ⟨by rw [hv1]; exact hst.2.2.2.2.2, by rw [hv1]; exact hst.1,
    by rw [hv1]; exact hst.2.1, by rw [hv1]; exact hst.2.2.1,
    by rw [hv1]; exact hst.2.2.2.1, ?_, ?_, ?_, ?_, ?_, ?_, ?_⟩
  · intro hws
    rw [hv1, hacts]
    simp [hws]
  · intro x hx
    constructor
    · rw [hv1, hacts]
      simp only [List.mem_append, List.mem_map]
      exact Or.inl (Or.inr ⟨x, hx, rfl⟩)
    · intro hnone
      rw [hv1]
      exact cleanDirty_settles_pending hx hnone
  · intro x hx
    constructor
    · rw [hv1, hacts]
      simp only [List.mem_append, List.mem_map]
      exact Or.inr ⟨x, hx, rfl⟩
    · intro hnone
      rw [hv1]
      exact cleanDirty_settles_waiters hx hnone
  · rw [hv1, hv3]
    simp [SandboxWebSocket.cleanDirtyWebSocketIfPresent]
  · rw [hv1, hv3]
    simp [SandboxWebSocket.cleanDirtyWebSocketIfPresent]
  · intro tr pid o h
    exact run_settled_mono tr _ h
  · intro tr pid o h
    exact run_settled_mono tr _ h

/-- Witness for C3's amended theorem at a concrete state with one
pending request, one waiter and one queued message. -/
theorem c3_witness :
    (step c3State WsEvent.opDisconnect).1.shouldAutoReconnect = false ∧
    lookupA (step c3State WsEvent.opDisconnect).1.settled 0 =
      some (Outcome.rejected wsClosedMsg) ∧
    lookupA (step c3State WsEvent.opDisconnect).1.settled 1 =
      some (Outcome.rejected wsClosedMsg) ∧
    (step c3State WsEvent.opDisconnect).1.messagesData = [] := by
  have h := c3_disconnect_teardown c3State
  refine ⟨h.1, ?_, ?_, h.2.2.2.2.1⟩
  · exact ((h.2.2.2.2.2.2.1 (0, 0, 0) (by decide)).2 (by decide))
  · exact ((h.2.2.2.2.2.2.2.1 ("E", 1, 1) (by decide)).2 (by decide))

/-- While not connected, `send` enqueues the serialized message at the
back of the outbound queue and delivers nothing. -/
theorem send_enqueues {s : WsState} (e d : String)
    (h : s.connectionState ≠ ConnState.connected) :
    (step s (WsEvent.opSend e d)).1.messagesData =
      s.messagesData ++ [⟨s.nextMsgNum, e, d⟩] ∧
    (step s (WsEvent.opSend e d)).1.connectionState = s.connectionState ∧
    (step s (WsEvent.opSend e d)).1.wsPresent = s.wsPresent ∧
    (step s (WsEvent.opSend e d)).1.nextMsgNum = s.nextMsgNum + 1 ∧
    (step s (WsEvent.opSend e d)).2 = [] := by
  simp only [step, SandboxWebSocket.send, SandboxWebSocket.sendSingleMessage]
  rw [if_pos (Or.inl h)]
  simp

/-- Sending any list of payloads while not connected appends their
serializations to the queue in order, delivers nothing, and changes
neither the connection state nor the socket presence. -/
theorem run_sends_disconnected (ps : List (String × String)) :
    ∀ (s : WsState), s.connectionState ≠ ConnState.connected →
    (run s (ps.map (fun p => WsEvent.opSend p.1 p.2))).1.messagesData =
      s.messagesData ++ rawsFrom s.nextMsgNum ps ∧
    (run s (ps.map (fun p => WsEvent.opSend p.1 p.2))).1.connectionState =
      s.connectionState ∧
    (run s (ps.map (fun p => WsEvent.opSend p.1 p.2))).1.wsPresent = s.wsPresent ∧
    (run s (ps.map (fun p => WsEvent.opSend p.1 p.2))).2 = [] := by
  induction ps with
  | nil =>
    intro s h
    simp [run, rawsFrom]
  | cons p rest ih =>
    intro s h
    have hp := send_enqueues p.1 p.2 h
    have hconn : (step s (WsEvent.opSend p.1 p.2)).1.connectionState ≠
        ConnState.connected := by
      rw [hp.2.1]; exact h
    have hr := ih (step s (WsEvent.opSend p.1 p.2)).1 hconn
    simp only [List.map_cons, run]
    refine ⟨?_, ?_, ?_, ?_⟩
    · rw [hr.1, hp.1, hp.2.2.2.1, rawsFrom, List.append_assoc]
      rfl
    · rw [hr.2.1, hp.2.1]
    · rw [hr.2.2.1, hp.2.2.1]
    · rw [hp.2.2.2.2, hr.2.2.2]
      rfl

/-- C6: messages sent while the channel is not connected are held in
the outbound queue in FIFO order and nothing is delivered early; when
the transport then reports open, the queued messages are handed to the
transport in exactly their original enqueue order and the queue is
emptied. -/
theorem c6_queue_fifo :
    ∀ (ps : List (String × String)) (s : WsState),
      s.connectionState ≠ ConnState.connected →
      (run s (ps.map (fun p => WsEvent.opSend p.1 p.2))).1.messagesData =
        s.messagesData ++ rawsFrom s.nextMsgNum ps ∧
      (run s (ps.map (fun p => WsEvent.opSend p.1 p.2))).2 = [] ∧
      (s.wsPresent = true →
        (step (run s (ps.map (fun p => WsEvent.opSend p.1 p.2))).1
            WsEvent.transportOpen).2 =
          (s.messagesData ++ rawsFrom s.nextMsgNum ps).map WsAction.transportSend ∧
        (step (run s (ps.map (fun p => WsEvent.opSend p.1 p.2))).1
            WsEvent.transportOpen).1.messagesData = [] ∧
        (step (run s (ps.map (fun p => WsEvent.opSend p.1 p.2))).1
            WsEvent.transportOpen).1.connectionState = ConnState.connected) := by
  intro ps s h
  have hr := run_sends_disconnected ps s h
  refine ⟨hr.1, hr.2.2.2, fun hws => ?_⟩
  have hws2 : (run s (ps.map (fun p => WsEvent.opSend p.1 p.2))).1.wsPresent = true := by
    rw [hr.2.2.1]; exact hws
  simp only [step, hws2, if_pos, SandboxWebSocket.onOpen]
  exact ⟨by rw [hr.1], trivial, trivial⟩

/-- Witness for C6: enqueue `A`, `B`, `C` on a connecting channel, then
open — the transport receives `A`, `B`, `C` in that order. -/
theorem c6_witness :
    (step (run (step SandboxWebSocket.initState WsEvent.opConnect).1
        [WsEvent.opSend "A" "", WsEvent.opSend "B" "", WsEvent.opSend "C" ""]).1
      WsEvent.transportOpen).2 =
      [WsAction.transportSend ⟨0, "A", ""⟩, WsAction.transportSend ⟨1, "B", ""⟩,
        WsAction.transportSend ⟨2, "C", ""⟩] := by
  have h := c6_queue_fifo [("A", ""), ("B", ""), ("C", "")]
    (step SandboxWebSocket.initState WsEvent.opConnect).1 (by decide)
  have h2 := (h.2.2 (by decide)).1
  exact h2.trans (by decide)

/-- An incremental streaming message for a task with a registered
handler leaves the channel state unchanged and emits exactly the
handler's chunk callbacks for the non-null fields. -/
theorem inbound_io_step {s : WsState} {m : InMessage} {T : String} {h : TaskHandler}
    {pr : Int} {so se : Option String} (hws : s.wsPresent = true)
    (hh : lookupA s.handlers T = some h)
    (him : m.payload = InPayload.stream T pr (EventDetails.io so se)) :
    step s (WsEvent.inbound m) = (s, ioActsOf h T m) := by
  simp only [step, hws, if_pos, SandboxWebSocket.onMessage, him, hh, ioActsOf, if_pos rfl]

/-- A terminal streaming message for a task with a registered handler
invokes the provided close callback with the raw nullable exit code and
deregisters the handler. -/
theorem inbound_close_step {s : WsState} {m : InMessage} {T : String} {h : TaskHandler}
    {pr : Int} {code : Option Int} {err : Option String} (hws : s.wsPresent = true)
    (hh : lookupA s.handlers T = some h)
    (him : m.payload = InPayload.stream T pr (EventDetails.close code err)) :
    step s (WsEvent.inbound m) =
      ({ s with handlers := eraseA s.handlers T },
        if h.onClose then [WsAction.closeCb T code] else []) := by
  simp only [step, hws, if_pos, SandboxWebSocket.onMessage, him, hh]

/-- An inbound message that is not a streaming event for the given task
preserves that task's handler registration (and the handler-key
distinctness and socket presence) and emits no callback for it. -/
theorem inbound_other_step {s : WsState} {m : InMessage} (T : String)
    (hT : ¬ targetsTask T m) :
    lookupA (step s (WsEvent.inbound m)).1.handlers T = lookupA s.handlers T ∧
    (step s (WsEvent.inbound m)).1.wsPresent = s.wsPresent ∧
    ((s.handlers.map (fun x => x.1)).Nodup →
      ((step s (WsEvent.inbound m)).1.handlers.map (fun x => x.1)).Nodup) ∧
    (step s (WsEvent.inbound m)).2.filter (isTaskAct T) = [] := by
  by_cases hws : s.wsPresent = true
  case neg =>
    simp only [step, hws]
    simp [Bool.not_eq_true] at hws
    simp [hws]
  case pos =>
  simp only [step, hws, if_pos, SandboxWebSocket.onMessage]
  cases hmp : m.payload with
  | plain et d =>
    cases hp : lookupA s.pending m.messageId with
    | some pt => simp [isTaskAct, hws]
    | none =>
      cases hw : lookupA s.waiters (InPayload.plain et d).eventType with
      | some pt => simp [isTaskAct, hws]
      | none => simp [isTaskAct, hws]
  | stream t pr det =>
    have htne : t ≠ T := by
      intro he
      exact hT (by rw [targetsTask, hmp]; exact he)
    cases hh : lookupA s.handlers t with
    | none => simp [hh, hws]
    | some hd =>
      simp only [hh]
      cases det with
      | io so se =>
        dsimp only
        refine ⟨rfl, hws, fun hn => hn, ?_⟩
        have hbe : (t == T) = false := by simp [htne]
        cases so <;> cases se <;>
          simp [isTaskAct, hbe] <;> split <;> simp [isTaskAct, hbe]
      | close code err =>
        dsimp only
        refine ⟨lookupA_eraseA_ne htne, rfl, ?_, ?_⟩
        · intro hn
          exact hn.sublist (((eraseA_sublist s.handlers t).map _))
        · have hbe : (t == T) = false := by simp [htne]
          split <;> simp [isTaskAct, hbe]

/-- Every callback a handler receives for an incremental message of
its task is tagged with that task. -/
theorem ioActsOf_filter (h : TaskHandler) (T : String) (m : InMessage) :
    (ioActsOf h T m).filter (isTaskAct T) = ioActsOf h T m := by
  rcases m with ⟨mid, pay⟩
  cases pay with
  | plain e d => rfl
  | stream t pr det =>
    cases det with
    | close c e => rfl
    | io so se =>
      simp only [ioActsOf]
      by_cases ht : t = T
      · rw [if_pos ht]
        cases so <;> cases se <;> cases hso : h.onStdout <;> cases hse : h.onStderr <;>
          simp [isTaskAct, hso, hse]
      · rw [if_neg ht]
        rfl

/-- A message that is not a streaming event for the task yields no
chunk callbacks for it. -/
theorem ioActsOf_nontarget (h : TaskHandler) {T : String} {m : InMessage}
    (hT : ¬ targetsTask T m) : ioActsOf h T m = [] := by
  rcases m with ⟨mid, pay⟩
  cases pay with
  | plain e d => rfl
  | stream t pr det =>
    cases det with
    | close c e => rfl
    | io so se =>
      simp only [ioActsOf]
      rw [if_neg (fun ht => hT (by rw [targetsTask]; exact ht))]

/-- With no handler registered for the task, an inbound message leaves
it unregistered and produces no callback for it (the message is
dropped for that task). -/
theorem inbound_no_handler {s : WsState} {T : String} (m : InMessage)
    (hh : lookupA s.handlers T = none) :
    lookupA (step s (WsEvent.inbound m)).1.handlers T = none ∧
    (step s (WsEvent.inbound m)).2.filter (isTaskAct T) = [] := by
  by_cases hT : targetsTask T m
  case neg =>
    have h2 := inbound_other_step (s := s) T hT
    exact ⟨h2.1.trans hh, h2.2.2.2⟩
  case pos =>
    by_cases hws : s.wsPresent = true
    case neg =>
      simp only [Bool.not_eq_true] at hws
      simp only [step, hws]
      exact ⟨hh, rfl⟩
    case pos =>
      rcases m with ⟨mid, pay⟩
      cases pay with
      | plain e d => exact absurd hT (by simp [targetsTask])
      | stream t pr det =>
        have ht : t = T := hT
        subst ht
        simp only [step, hws, if_pos, SandboxWebSocket.onMessage, hh]
        exact ⟨trivial, rfl⟩

/-- With no handler registered for the task, no sequence of inbound
messages can produce a callback for it. -/
theorem run_no_handler (msgs : List InMessage) :
    ∀ (s : WsState) (T : String), lookupA s.handlers T = none →
    lookupA (run s (msgs.map WsEvent.inbound)).1.handlers T = none ∧
    (run s (msgs.map WsEvent.inbound)).2.filter (isTaskAct T) = [] := by
  induction msgs with
  | nil =>
    intro s T hh
    exact ⟨hh, rfl⟩
  | cons m rest ih =>
    intro s T hh
    have h1 := inbound_no_handler m hh
    have h2 := ih (step s (WsEvent.inbound m)).1 T h1.1
    simp only [List.map_cons, run]
    exact ⟨h2.1, by rw [List.filter_append, h1.2, h2.2, List.nil_append]⟩

/-- C5: for a registered streaming handler, any inbound sequence of
incremental events followed by a terminal close event for its task
yields exactly the chunk callbacks in arrival order followed by one
close callback; the handler is removed by the terminal event, and no
callback for that task fires afterwards, whatever inbound messages
follow. -/
theorem c5_streaming_order (pre : List InMessage) :
    ∀ (s : WsState) (T : String) (h : TaskHandler) (post : List InMessage)
      (mid : Nat) (pr : Int) (code : Option Int) (err : Option String),
      s.wsPresent = true →
      (s.handlers.map (fun x => x.1)).Nodup →
      lookupA s.handlers T = some h →
      (∀ m ∈ pre, targetsTask T m → ioEvent m) →
      (run s ((pre ++ ⟨mid, InPayload.stream T pr (EventDetails.close code err)⟩ :: post).map
          WsEvent.inbound)).2.filter (isTaskAct T) =
        pre.flatMap (ioActsOf h T) ++
          (if h.onClose then [WsAction.closeCb T code] else []) ∧
      lookupA (run s ((pre ++ ⟨mid, InPayload.stream T pr
          (EventDetails.close code err)⟩ :: post).map WsEvent.inbound)).1.handlers T =
        none := by
  induction pre with
  | nil =>
    intro s T h post mid pr code err hws hnd hh _hpre
    simp only [List.nil_append, List.map_cons, run]
    rw [inbound_close_step hws hh rfl]
    have hnone : lookupA (eraseA s.handlers T) T = none := lookupA_eraseA_self hnd
    have hp := run_no_handler post { s with handlers := eraseA s.handlers T } T hnone
    refine ⟨?_, hp.1⟩
    rw [List.filter_append, hp.2, List.append_nil]
    cases hc : h.onClose <;> simp [isTaskAct, hc]
  | cons m pre' ih =>
    intro s T h post mid pr code err hws hnd hh hpre
    by_cases hT : targetsTask T m
    case pos =>
      have hio : ioEvent m := hpre m (List.mem_cons_self _ _) hT
      rcases m with ⟨mmid, pay⟩
      cases pay with
      | plain e d => exact absurd hT (by simp [targetsTask])
      | stream t prr det =>
        have ht : t = T := hT
        cases det with
        | close c e => exact absurd hio (by simp [ioEvent])
        | io so se =>
          simp only [List.cons_append, List.map_cons, run]
          rw [inbound_io_step hws hh (show _ = InPayload.stream T prr (EventDetails.io so se) by rw [ht])]
          have hrest := ih s T h post mid pr code err hws hnd hh
            (fun m' hm' => hpre m' (List.mem_cons_of_mem _ hm'))
          refine ⟨?_, hrest.2⟩
          simp only [List.filter_append, ioActsOf_filter, List.append_eq, hrest.1,
            List.flatMap_cons, List.append_assoc]
    case neg =>
      have hother := inbound_other_step (s := s) (m := m) T hT
      have hws2 : (step s (WsEvent.inbound m)).1.wsPresent = true := by
        rw [hother.2.1]; exact hws
      have hnd2 := hother.2.2.1 hnd
      have hh2 : lookupA (step s (WsEvent.inbound m)).1.handlers T = some h := by
        rw [hother.1]; exact hh
      have hrest := ih (step s (WsEvent.inbound m)).1 T h post mid pr code err
        hws2 hnd2 hh2 (fun m' hm' => hpre m' (List.mem_cons_of_mem _ hm'))
      simp only [List.cons_append, List.map_cons, run]
      refine ⟨?_, hrest.2⟩
      simp only [List.filter_append, hother.2.2.2, List.append_eq, hrest.1,
        List.nil_append, List.flatMap_cons, ioActsOf_nontarget h hT]

/-- Witness for C5: one stdout chunk then a close with exit code 0 for
task `T`, on a connected channel with all three callbacks provided. -/
theorem c5_witness :
    (run c4State ([⟨1, InPayload.stream "T" 1 (EventDetails.io (some "a") none)⟩,
        ⟨2, InPayload.stream "T" 1 (EventDetails.close (some 0) none)⟩].map
        WsEvent.inbound)).2.filter (isTaskAct "T") =
      [WsAction.chunkOut "T" "a", WsAction.closeCb "T" (some 0)] ∧
    lookupA (run c4State ([⟨1, InPayload.stream "T" 1 (EventDetails.io (some "a") none)⟩,
        ⟨2, InPayload.stream "T" 1 (EventDetails.close (some 0) none)⟩].map
        WsEvent.inbound)).1.handlers "T" = none := by
  have h := c5_streaming_order
    [⟨1, InPayload.stream "T" 1 (EventDetails.io (some "a") none)⟩]
    c4State "T" ⟨true, true, true⟩ [] 2 1 (some 0) none
    (by decide) (by decide) (by decide)
    (by intro m hm _; simp only [List.mem_singleton] at hm; subst hm; trivial)
  exact ⟨h.1.trans (by decide), h.2⟩

/-- C4: the close-event contract.  In the part_003 revision the awaited
streaming command coalesces a null exit code to 0 and fails with the
close event's error string when one is present.  In the src/src
revision the same close event instead resolves the awaited result: the
channel passes the raw nullable code to the close callback and the
error string is ignored, so `runStreamingCommand` resolves with a null
exit code and never rejects. -/
theorem c4_close_event_handling :
    runStreamingCommandLoop "T" [⟨"T", EventDetails.close none (some "boom")⟩] =
      ([], some (Except.error "boom")) ∧
    runStreamingCommandLoop "T" [⟨"T", EventDetails.close none none⟩] =
      ([WsAction.closeCb "T" (some 0)], some (Except.ok 0)) ∧
    step c4State (WsEvent.inbound c4CloseMsg) =
      ({ c4State with handlers := [] }, [WsAction.closeCb "T" none]) ∧
    streamingCommandResult "T" "" "" [WsAction.closeCb "T" none] = some ("", "", none) := by
  refine ⟨rfl, rfl, ?_, rfl⟩
  decide

/-- C7: path normalization maps the `~` shorthand and the documented
`/home/damner` absolute form to the identical server-side path (in
particular `~/foo.txt` and `/home/damner/foo.txt`), the part_006
revision does the same for its `/home/damner/code` prefix, and a path
starting with neither prefix makes `getFile`/`writeFile` throw the
invalid-path validation error, producing no network request. -/
theorem c7_path_normalization :
    (∀ p : List Char, normalizePath ('~' :: p) = normalizePath (homeDamner ++ p) ∧
      normalizePath ('~' :: p) = Except.ok (homeDamner ++ p)) ∧
    normalizePath "~/foo.txt".data = normalizePath "/home/damner/foo.txt".data ∧
    (∀ p : List Char,
      normalizePathCodeVariant ('~' :: p) = normalizePathCodeVariant (homeDamnerCode ++ p) ∧
      normalizePathCodeVariant ('~' :: p) = Except.ok (homeDamnerCode ++ p)) ∧
    (∀ (p : List Char), tildeChars.isPrefixOf p = false → homeDamner.isPrefixOf p = false →
      normalizePath p = Except.error (invalidPathMsg p) ∧
      (∀ s : SandboxState, Sandbox.isConnected s = true →
        Sandbox.getFile s p = Except.error (invalidPathMsg p) ∧
        (∀ content, Sandbox.writeFile s p content = Except.error (invalidPathMsg p)))) := by
  refine ⟨fun p => ⟨?_, normalizePath_tilde p⟩, ?_, fun p => ⟨?_, ?_⟩, ?_⟩
  · rw [normalizePath_tilde, normalizePath_home]
  · have h := normalizePath_tilde "/foo.txt".data
    have h2 := normalizePath_home "/foo.txt".data
    simpa using h.trans h2.symm
  · simp [normalizePathCodeVariant, tilde_isPrefixOf_cons, tilde_not_prefixOf_homeCode,
      isPrefixOf_append_self]
  · simp [normalizePathCodeVariant, tilde_isPrefixOf_cons]
  · intro p h1 h2
    refine ⟨normalizePath_bad p h1 h2, fun s hs => ?_⟩
    constructor
    · simp [Sandbox.getFile, hs, normalizePath_bad p h1 h2]
    · intro content
      simp [Sandbox.writeFile, hs, normalizePath_bad p h1 h2]

/-- Witness for C7 at the concrete bad path `/etc/passwd` on a
connected session. -/
theorem c7_witness :
    normalizePath "/etc/passwd".data = Except.error (invalidPathMsg "/etc/passwd".data) ∧
    Sandbox.getFile connectedSandbox "/etc/passwd".data =
      Except.error (invalidPathMsg "/etc/passwd".data) := by
  have h := (c7_path_normalization.2.2.2 "/etc/passwd".data (by decide) (by decide))
  exact ⟨h.1, (h.2 connectedSandbox (by decide)).1⟩

/-- C8: on a connected session `exposePort` deterministically returns
the URL string built from the subdomain and the port, performing no
network call (its result carries no `NetCall`); the fixed allow-list is
the parameter type `3000 | 1337 | 1338`, whose assignability check
rejects 8080 — and exactly the three listed ports pass it. -/
theorem c8_expose_port :
    (∀ (s : SandboxState) (cd : ContainerDetails) (port : AllowedPort),
      Sandbox.isConnected s = true → s.containerDetails = some cd →
      Sandbox.exposePort s port =
        Except.ok ("https://" ++ cd.subdomain ++ "-" ++ toString port.toNat ++
          ".run-code.com")) ∧
    portOfNat 8080 = none ∧
    (∀ n : Nat, (portOfNat n).isSome = true ↔ n = 3000 ∨ n = 1337 ∨ n = 1338) ∧
    (∀ p : AllowedPort, portOfNat p.toNat = some p) := by
  refine ⟨fun s cd port hs hcd => ?_, by decide, fun n => ?_, fun p => by cases p <;> rfl⟩
  · simp [Sandbox.exposePort, hs, hcd, portUrl]
  · by_cases h1 : n = 3000
    · simp [portOfNat, h1]
    · by_cases h2 : n = 1337
      · simp [portOfNat, h1, h2]
      · by_cases h3 : n = 1338
        · simp [portOfNat, h1, h2, h3]
        · simp [portOfNat, h1, h2, h3]

/-- Witness for C8 on a concrete connected session and port 3000. -/
theorem c8_witness :
    Sandbox.exposePort connectedSandbox AllowedPort.p3000 =
      Except.ok "https://abc123-3000.run-code.com" := by
  have h := c8_expose_port.1 connectedSandbox ⟨"abc123", "tok"⟩ AllowedPort.p3000
    (by decide) (by decide)
  simpa using h

/-- C9: after the orchestrator's `disconnect` succeeds, the session is
no longer connected and every subsequent public operation — including a
second `disconnect` — throws the not-connected error. -/
theorem c9_operations_after_teardown :
    ∀ (s s' : SandboxState) (call : Option NetCall),
      Sandbox.disconnect s = Except.ok (s', call) →
      Sandbox.isConnected s' = false ∧
      (∀ cmd args, Sandbox.runCommand s' cmd args = Except.error notConnectedMsg.data) ∧
      (∀ cmd args, Sandbox.runStreamingCommand s' cmd args =
        Except.error notConnectedMsg.data) ∧
      (∀ p, Sandbox.getFile s' p = Except.error notConnectedMsg.data) ∧
      (∀ p content, Sandbox.writeFile s' p content = Except.error notConnectedMsg.data) ∧
      (∀ port, Sandbox.exposePort s' port = Except.error notConnectedMsg.data) ∧
      Sandbox.disconnect s' = Except.error notConnectedMsg.data := by
  intro s s' call h
  rw [Sandbox.disconnect] at h
  split at h
  · exact absurd h (by simp)
  · simp only [Except.ok.injEq, Prod.mk.injEq] at h
    have hws : s'.ws = none := by
      rw [← h.1]
    have hconn : Sandbox.isConnected s' = false := by
      rw [Sandbox.isConnected, hws]
    refine ⟨hconn, ?_, ?_, ?_, ?_, ?_, ?_⟩
    · intro cmd args
      rw [Sandbox.runCommand, if_pos (by rw [hconn])]
    · intro cmd args
      rw [Sandbox.runStreamingCommand, if_pos (by rw [hconn])]
    · intro p
      rw [Sandbox.getFile, if_pos (by rw [hconn])]
    · intro p content
      rw [Sandbox.writeFile, if_pos (by rw [hconn])]
    · intro port
      rw [Sandbox.exposePort, if_pos (by rw [hconn])]
    · rw [Sandbox.disconnect, if_pos (by rw [hconn])]

/-- Witness for C9 on a concrete connected session. -/
theorem c9_witness :
    Sandbox.isConnected
      { connectedSandbox with ws := none } = false ∧
    Sandbox.runCommand { connectedSandbox with ws := none } "ls" none =
      Except.error notConnectedMsg.data := by
  have h := c9_operations_after_teardown connectedSandbox
    { connectedSandbox with ws := none }
    (some (NetCall.disconnectGet ⟨"abc123", "tok"⟩)) rfl
  exact ⟨h.1, h.2.1 "ls" none⟩

/-! ## Base64URL codec lemmas -/

theorem urlChar_roundtrip : ∀ n, n < 64 →
    charToSextet (unUrlSafeChar (urlSafeChar (sextetToChar n))) = some n := by
  decide

theorem url_ne_pad : ∀ n, n < 64 → (urlSafeChar (sextetToChar n) != '=') = true := by
  decide

theorem sextet_ne_pad : ∀ n, n < 64 → ¬ sextetToChar n = '=' := by
  decide

theorem unUrl_url_eq : ∀ n, n < 64 →
    unUrlSafeChar (urlSafeChar (sextetToChar n)) = sextetToChar n := by
  decide

theorem sextet_inv : ∀ n, n < 64 → charToSextet (sextetToChar n) = some n := by
  decide

theorem padBase64_cons4 (c1 c2 c3 c4 : Char) (xs : List Char) :
    padBase64 (c1 :: c2 :: c3 :: c4 :: xs) = c1 :: c2 :: c3 :: c4 :: padBase64 xs := by
  have hm : (4 - (List.length xs + 1 + 1 + 1 + 1) % 4) % 4 =
      (4 - List.length xs % 4) % 4 := by omega
  simp [padBase64, List.length_cons, hm]

theorem encodeUrl_nil : encodeBase64Url [] = [] := rfl

theorem urlSafeChar_pad : urlSafeChar '=' = '=' := rfl

theorem encodeUrl_one (a : Nat) (h : a < 256) :
    encodeBase64Url [a] =
      [urlSafeChar (sextetToChar (a / 4)), urlSafeChar (sextetToChar (a % 4 * 16))] := by
  have h1 : a / 4 < 64 := by omega
  have h2 : a % 4 * 16 < 64 := by omega
  simp [encodeBase64Url, base64EncodeChunks, List.filter, url_ne_pad _ h1, url_ne_pad _ h2,
    urlSafeChar_pad]

theorem encodeUrl_two (a b : Nat) (ha : a < 256) (hb : b < 256) :
    encodeBase64Url [a, b] =
      [urlSafeChar (sextetToChar (a / 4)), urlSafeChar (sextetToChar (a % 4 * 16 + b / 16)),
        urlSafeChar (sextetToChar (b % 16 * 4))] := by
  have h1 : a / 4 < 64 := by omega
  have h2 : a % 4 * 16 + b / 16 < 64 := by omega
  have h3 : b % 16 * 4 < 64 := by omega
  simp [encodeBase64Url, base64EncodeChunks, List.filter, url_ne_pad _ h1, url_ne_pad _ h2,
    url_ne_pad _ h3, urlSafeChar_pad]

theorem encodeUrl_cons3 (a b c : Nat) (rest : List Nat) (ha : a < 256) (hb : b < 256)
    (hc : c < 256) :
    encodeBase64Url (a :: b :: c :: rest) =
      urlSafeChar (sextetToChar (a / 4)) ::
      urlSafeChar (sextetToChar (a % 4 * 16 + b / 16)) ::
      urlSafeChar (sextetToChar (b % 16 * 4 + c / 64)) ::
      urlSafeChar (sextetToChar (c % 64)) :: encodeBase64Url rest := by
  have h1 : a / 4 < 64 := by omega
  have h2 : a % 4 * 16 + b / 16 < 64 := by omega
  have h3 : b % 16 * 4 + c / 64 < 64 := by omega
  have h4 : c % 64 < 64 := by omega
  simp [encodeBase64Url, base64EncodeChunks, List.filter, url_ne_pad _ h1, url_ne_pad _ h2,
    url_ne_pad _ h3, url_ne_pad _ h4]

/-- C10: decoding the Base64URL encoding of any byte sequence (the
UTF-8 bytes of the string in the source) returns the original
sequence. -/
theorem c10_base64url_roundtrip :
    ∀ (bytes : List Nat), (∀ b ∈ bytes, b < 256) →
      decodeBase64Url (encodeBase64Url bytes) = some bytes := by
  intro bytes
  induction bytes using base64EncodeChunks.induct with
  | case1 =>
    intro _
    rfl
  | case2 a =>
    intro hb
    have ha : a < 256 := hb a (List.mem_singleton.2 rfl)
    have h1 : a / 4 < 64 := by omega
    have h2 : a % 4 * 16 < 64 := by omega
    rw [encodeUrl_one a ha, decodeBase64Url]
    simp only [List.map_cons, List.map_nil, unUrl_url_eq _ h1, unUrl_url_eq _ h2]
    rw [show padBase64 [sextetToChar (a / 4), sextetToChar (a % 4 * 16)] =
      [sextetToChar (a / 4), sextetToChar (a % 4 * 16), '=', '='] from rfl]
    rw [base64DecodeChunks]
    simp only [sextet_inv _ h1, sextet_inv _ h2]
    simp only [if_true, List.cons.injEq, Option.some.injEq]
    simp
    all_goals omega
  | case3 a b =>
    intro hb
    have ha : a < 256 := hb a (by simp)
    have hbb : b < 256 := hb b (by simp)
    have h1 : a / 4 < 64 := by omega
    have h2 : a % 4 * 16 + b / 16 < 64 := by omega
    have h3 : b % 16 * 4 < 64 := by omega
    rw [encodeUrl_two a b ha hbb, decodeBase64Url]
    simp only [List.map_cons, List.map_nil, unUrl_url_eq _ h1, unUrl_url_eq _ h2,
      unUrl_url_eq _ h3]
    rw [show padBase64 [sextetToChar (a / 4), sextetToChar (a % 4 * 16 + b / 16),
        sextetToChar (b % 16 * 4)] =
      [sextetToChar (a / 4), sextetToChar (a % 4 * 16 + b / 16),
        sextetToChar (b % 16 * 4), '='] from rfl]
    rw [base64DecodeChunks]
    simp only [sextet_inv _ h1, sextet_inv _ h2, sextet_inv _ h3]
    rw [if_neg (fun hpe => sextet_ne_pad _ h3 hpe.1)]
    simp
    all_goals omega
  | case4 a b c rest ih =>
    intro hb
    have ha : a < 256 := hb a (by simp)
    have hbb : b < 256 := hb b (by simp)
    have hcc : c < 256 := hb c (by simp)
    have hrest : ∀ x ∈ rest, x < 256 := fun x hx => hb x (by simp [hx])
    have h1 : a / 4 < 64 := by omega
    have h2 : a % 4 * 16 + b / 16 < 64 := by omega
    have h3 : b % 16 * 4 + c / 64 < 64 := by omega
    have h4 : c % 64 < 64 := by omega
    have hihr := ih hrest
    rw [encodeUrl_cons3 a b c rest ha hbb hcc, decodeBase64Url]
    simp only [List.map_cons, unUrl_url_eq _ h1, unUrl_url_eq _ h2, unUrl_url_eq _ h3,
      unUrl_url_eq _ h4]
    rw [padBase64_cons4, base64DecodeChunks]
    simp only [sextet_inv _ h1, sextet_inv _ h2, sextet_inv _ h3, sextet_inv _ h4]
    rw [if_neg (fun hpe => sextet_ne_pad _ h3 hpe.1),
      if_neg (sextet_ne_pad _ h4)]
    rw [decodeBase64Url] at hihr
    rw [hihr]
    simp
    all_goals omega

/-- Witness for C10 at the concrete byte sequence of the UTF-8 string
`Hi!`. -/
theorem c10_witness :
    decodeBase64Url (encodeBase64Url [72, 105, 33]) = some [72, 105, 33] := by
  exact c10_base64url_roundtrip [72, 105, 33] (by decide)



theorem inv_congr {s s' : WsState} (hInv : Inv s)
    (h1 : s'.pending = s.pending) (h2 : s'.waiters = s.waiters)
    (h3 : s'.timers = s.timers) (h4 : s'.settled = s.settled)
    (h5 : s'.sendPids = s.sendPids) (h6 : s'.nextPid = s.nextPid)
    (h7 : s'.nextTimerId = s.nextTimerId) (h8 : s'.nextMsgNum = s.nextMsgNum) :
    Inv s' := by
  constructor
  · rw [h1]; exact hInv.pendKeysNodup
  · rw [pendingPids, h1]; exact hInv.pendPidsNodup
  · rw [h3]; exact hInv.timerKeysNodup
  · rw [h1, h4, h5, h6, h7, h3]; exact hInv.pend
  · rw [h3, h7]
    intro x hx
    refine ⟨(hInv.timer x hx).1, ?_⟩
    have h2t := (hInv.timer x hx).2
    rcases x with ⟨tid, k⟩
    cases k with
    | requestTimeout mid pid et =>
      rw [timerPidOk] at *
      rw [h1]
      exact h2t
    | waiterTimeout et pid =>
      rw [timerPidOk] at *
      rw [h6, h5]
      exact h2t
    | waiterTimeoutG et pid =>
      rw [timerPidOk] at *
      rw [h6, h5]
      exact h2t
  · rw [h2, h6, h5, h7, h3]; exact hInv.wait
  · rw [h5, h6, pendingPids, h1, h4]; exact hInv.sendAcc
  · rw [h1, h8]; exact hInv.pendMid
  · rw [h4, h6]; exact hInv.settledBound

theorem inv_init : Inv SandboxWebSocket.initState := by
  constructor <;> simp [SandboxWebSocket.initState, pendingPids]


theorem inv_cleanDirty {s : WsState} (hInv : Inv s) :
    Inv (SandboxWebSocket.cleanDirtyWebSocketIfPresent s).1 := by
  have hpend : (SandboxWebSocket.cleanDirtyWebSocketIfPresent s).1.pending = [] := rfl
  have hwait : (SandboxWebSocket.cleanDirtyWebSocketIfPresent s).1.waiters = [] := rfl
  have htm : (SandboxWebSocket.cleanDirtyWebSocketIfPresent s).1.timers =
      (SandboxWebSocket.rejectEntries
        (SandboxWebSocket.rejectEntries s.settled s.timers
          (s.pending.map (fun x => x.2))).1
        (SandboxWebSocket.rejectEntries s.settled s.timers
          (s.pending.map (fun x => x.2))).2.1
        (s.waiters.map (fun x => x.2))).2.1 := rfl
  have hsub : (SandboxWebSocket.cleanDirtyWebSocketIfPresent s).1.timers.Sublist s.timers := by
    rw [htm]
    exact (rejectEntries_timers_sublist _ _ _).trans (rejectEntries_timers_sublist _ _ _)
  constructor
  · rw [hpend]
    simp
  · rw [pendingPids, hpend]
    simp
  · exact hInv.timerKeysNodup.sublist (hsub.map _)
  · rw [hpend]
    simp
  · intro x hx
    have hx1 : x ∈ s.timers := hsub.mem hx
    refine ⟨(hInv.timer x hx1).1, ?_⟩
    rcases x with ⟨tid, k⟩
    cases k with
    | requestTimeout mid pid et =>
      exfalso
      have hlink := (hInv.timer _ hx1).2
      rw [timerPidOk] at hlink
      have hmem := lookupA_some_mem hlink
      have htid : tid ∈ (s.pending.map (fun y => y.2)).map (fun e => e.2) := by
        simp only [List.map_map]
        exact List.mem_map.2 ⟨(mid, pid, tid), hmem, rfl⟩
      have hnone1 := rejectEntries_timers_erased (s.pending.map (fun y => y.2))
        s.settled s.timers hInv.timerKeysNodup htid
      have hnone2 := rejectEntries_timers_none (s.waiters.map (fun y => y.2))
        (SandboxWebSocket.rejectEntries s.settled s.timers
          (s.pending.map (fun y => y.2))).1
        (SandboxWebSocket.rejectEntries s.settled s.timers
          (s.pending.map (fun y => y.2))).2.1 hnone1
      have := lookupA_isSome_of_mem hx
      rw [htm] at this
      simp only at this
      rw [hnone2] at this
      cases this
    | waiterTimeout et pid =>
      have hlink := (hInv.timer _ hx1).2
      rw [timerPidOk] at *
      exact hlink
    | waiterTimeoutG et pid =>
      have hlink := (hInv.timer _ hx1).2
      rw [timerPidOk] at *
      exact hlink
  · rw [hwait]
    simp
  · intro pid hp
    refine ⟨(hInv.sendAcc pid hp).1, Or.inr ?_⟩
    rcases (hInv.sendAcc pid hp).2 with h2 | h2
    · rcases List.mem_map.1 h2 with ⟨x, hx, hxe⟩
      have hnone : lookupA s.settled x.2.1 = none := (hInv.pend x hx).2.2.1
      have := cleanDirty_settles_pending hx hnone
      rw [hxe] at this
      rw [this]
      rfl
    · rcases Option.isSome_iff_exists.1 h2 with ⟨o, ho⟩
      rw [cleanDirty_settled_of_some ho]
      rfl
  · rw [hpend]
    simp
  · intro x hx
    have hx2 : x ∈ (SandboxWebSocket.rejectEntries
        (SandboxWebSocket.rejectEntries s.settled s.timers
          (s.pending.map (fun y => y.2))).1
        (SandboxWebSocket.rejectEntries s.settled s.timers
          (s.pending.map (fun y => y.2))).2.1
        (s.waiters.map (fun y => y.2))).1 := hx
    rcases mem_rejectEntries_settled hx2 with h1 | h1
    · rcases mem_rejectEntries_settled h1 with h2 | h2
      · exact hInv.settledBound x h2
      · simp only [List.map_map] at h2
        rcases List.mem_map.1 h2 with ⟨y, hy, hye⟩
        have := (hInv.pend y hy).1
        simp only [Function.comp_apply] at hye
        rw [hye] at this
        exact this
    · simp only [List.map_map] at h1
      rcases List.mem_map.1 h1 with ⟨y, hy, hye⟩
      have := (hInv.wait y hy).1
      simp only [Function.comp_apply] at hye
      rw [hye] at this
      exact this


theorem inv_opSend {s : WsState} (hInv : Inv s) (e d : String) :
    Inv (step s (WsEvent.opSend e d)).1 := by
  have hfresh : s.nextMsgNum ∉ s.pending.map (fun x => x.1) := by
    intro hm
    rcases List.mem_map.1 hm with ⟨x, hx, hxe⟩
    have := hInv.pendMid x hx
    omega
  have hset : setA s.pending s.nextMsgNum (s.nextPid, s.nextTimerId) =
      s.pending ++ [(s.nextMsgNum, s.nextPid, s.nextTimerId)] :=
    setA_of_not_mem_keys _ hfresh
  have hpfresh : lookupA s.pending s.nextMsgNum = none :=
    lookupA_none_of_not_mem_keys hfresh
  have htfresh : lookupA s.timers s.nextTimerId = none :=
    lookupA_none_of_bound (fun x hx => (hInv.timer x hx).1)
  have hsfresh : lookupA s.settled s.nextPid = none :=
    lookupA_none_of_bound (fun x hx => hInv.settledBound x hx)
  have hs1 : Inv { s with
      nextMsgNum := s.nextMsgNum + 1
      nextPid := s.nextPid + 1
      nextTimerId := s.nextTimerId + 1
      timers := s.timers ++
        [(s.nextTimerId, TimerKind.requestTimeout s.nextMsgNum s.nextPid e)]
      pending := setA s.pending s.nextMsgNum (s.nextPid, s.nextTimerId)
      sendPids := s.sendPids ++ [s.nextPid] } := by
    constructor
    · simp only [hset, List.map_append, List.map_cons, List.map_nil]
      rw [List.nodup_append]
      exact ⟨hInv.pendKeysNodup, List.nodup_singleton _,
        by simpa [List.disjoint_singleton] using hfresh⟩
    · simp only [pendingPids, hset, List.map_append, List.map_cons, List.map_nil]
      rw [List.nodup_append]
      refine ⟨hInv.pendPidsNodup, List.nodup_singleton _, ?_⟩
      simp only [List.disjoint_singleton]
      intro hm
      rcases List.mem_map.1 hm with ⟨x, hx, hxe⟩
      have := (hInv.pend x hx).1
      omega
    · simp only [List.map_append, List.map_cons, List.map_nil]
      rw [List.nodup_append]
      refine ⟨hInv.timerKeysNodup, List.nodup_singleton _, ?_⟩
      simp only [List.disjoint_singleton]
      intro hm
      rcases List.mem_map.1 hm with ⟨x, hx, hxe⟩
      have := (hInv.timer x hx).1
      omega
    · simp only [hset]
      intro x hx
      rcases List.mem_append.1 hx with hold | hnew
      · have hp := hInv.pend x hold
        refine ⟨by first | omega | (dsimp only; omega), List.mem_append_left _ hp.2.1, hp.2.2.1, by first | omega | (dsimp only; omega), ?_⟩
        rcases hp.2.2.2.2 with ⟨et, hlk⟩
        exact ⟨et, lookupA_append_some hlk⟩
      · simp only [List.mem_singleton] at hnew
        subst hnew
        refine ⟨by first | omega | (dsimp only; omega), List.mem_append_right _ (List.mem_singleton.2 rfl),
          hsfresh, by first | omega | (dsimp only; omega), ⟨e, ?_⟩⟩
        rw [lookupA_append_none _ htfresh, lookupA_cons, if_pos rfl]
    · intro x hx
      rcases List.mem_append.1 hx with hold | hnew
      · have ht := hInv.timer x hold
        refine ⟨by first | omega | (dsimp only; omega), ?_⟩
        rcases x with ⟨tid, k⟩
        cases k with
        | requestTimeout mid pid et2 =>
          rw [timerPidOk] at *
          simp only [hset]
          exact lookupA_append_some ht.2
        | waiterTimeout et2 pid =>
          rw [timerPidOk] at *
          refine ⟨by first | omega | (dsimp only; omega), ?_⟩
          intro hm
          rcases List.mem_append.1 hm with h2 | h2
          · exact ht.2.2 h2
          · simp only [List.mem_singleton] at h2
            omega
        | waiterTimeoutG et2 pid =>
          rw [timerPidOk] at *
          refine ⟨by first | omega | (dsimp only; omega), ?_⟩
          intro hm
          rcases List.mem_append.1 hm with h2 | h2
          · exact ht.2.2 h2
          · simp only [List.mem_singleton] at h2
            omega
      · simp only [List.mem_singleton] at hnew
        subst hnew
        refine ⟨by first | omega | (dsimp only; omega), ?_⟩
        rw [timerPidOk]
        simp only [hset]
        rw [lookupA_append_none _ hpfresh, lookupA_cons, if_pos rfl]
    · intro x hx
      have hw := hInv.wait x hx
      refine ⟨by first | omega | (dsimp only; omega), ?_, by first | omega | (dsimp only; omega), ?_⟩
      · intro hm
        rcases List.mem_append.1 hm with h2 | h2
        · exact hw.2.1 h2
        · simp only [List.mem_singleton] at h2
          have := hw.1
          omega
      · intro k hk
        cases hlk : lookupA s.timers x.2.2 with
        | some k2 =>
          rw [lookupA_append_some hlk] at hk
          have hk2 : k2 = k := by injection hk
          cases hk2
          exact hw.2.2.2 _ hlk
        | none =>
          rw [lookupA_append_none _ hlk, lookupA_cons, if_neg (by
            have := hw.2.2.1
            first | omega | (dsimp only; omega))] at hk
          exact Option.noConfusion hk
    · intro pid hp
      rcases List.mem_append.1 hp with hold | hnew
      · have ha := hInv.sendAcc pid hold
        refine ⟨by first | omega | (dsimp only; omega), ?_⟩
        rcases ha.2 with h2 | h2
        · left
          simp only [pendingPids, hset, List.map_append]
          exact List.mem_append_left _ h2
        · exact Or.inr h2
      · simp only [List.mem_singleton] at hnew
        subst hnew
        refine ⟨by first | omega | (dsimp only; omega), Or.inl ?_⟩
        simp only [pendingPids, hset, List.map_append, List.map_cons, List.map_nil]
        exact List.mem_append_right _ (List.mem_singleton.2 rfl)
    · simp only [hset]
      intro x hx
      rcases List.mem_append.1 hx with hold | hnew
      · have := hInv.pendMid x hold
        omega
      · simp only [List.mem_singleton] at hnew
        subst hnew
        omega
    · intro x hx
      have := hInv.settledBound x hx
      dsimp only
      omega
  apply inv_congr hs1 <;>
    (simp only [step, SandboxWebSocket.send, SandboxWebSocket.sendSingleMessage]
     split <;> rfl)


theorem inv_waitRegister {s : WsState} (hInv : Inv s) (et : String)
    (kind : TimerKind)
    (hkind : kind = TimerKind.waiterTimeout et s.nextPid ∨
      kind = TimerKind.waiterTimeoutG et s.nextPid)
    (settled1 : List (Nat × Outcome))
    (hmono : ∀ pid o, lookupA s.settled pid = some o → lookupA settled1 pid = some o)
    (hne : ∀ pid, pid ∈ s.sendPids → lookupA settled1 pid = lookupA s.settled pid)
    (hbound : ∀ x ∈ settled1, x.1 < s.nextPid) :
    Inv { s with
      settled := settled1
      nextPid := s.nextPid + 1
      nextTimerId := s.nextTimerId + 1
      timers := s.timers ++ [(s.nextTimerId, kind)]
      waiters := setA s.waiters et (s.nextPid, s.nextTimerId) } := by
  have hsendBound : ∀ pid ∈ s.sendPids, pid < s.nextPid :=
    fun pid hp => (hInv.sendAcc pid hp).1
  constructor
  · exact hInv.pendKeysNodup
  · exact hInv.pendPidsNodup
  · simp only [List.map_append, List.map_cons, List.map_nil]
    rw [List.nodup_append]
    refine ⟨hInv.timerKeysNodup, List.nodup_singleton _, ?_⟩
    simp only [List.disjoint_singleton]
    intro hm
    rcases List.mem_map.1 hm with ⟨x, hx, hxe⟩
    have := (hInv.timer x hx).1
    omega
  · intro x hx
    have hp := hInv.pend x hx
    refine ⟨by first | omega | (dsimp only; omega), hp.2.1, ?_,
      by first | omega | (dsimp only; omega), ?_⟩
    · rw [hne _ hp.2.1]
      exact hp.2.2.1
    · rcases hp.2.2.2.2 with ⟨et2, hlk⟩
      exact ⟨et2, lookupA_append_some hlk⟩
  · intro x hx
    rcases List.mem_append.1 hx with hold | hnew
    · have ht := hInv.timer x hold
      refine ⟨by first | omega | (dsimp only; omega), ?_⟩
      rcases x with ⟨tid, k⟩
      cases k with
      | requestTimeout mid pid et2 =>
        rw [timerPidOk] at *
        exact ht.2
      | waiterTimeout et2 pid =>
        rw [timerPidOk] at *
        exact ⟨by first | omega | (dsimp only; omega), ht.2.2⟩
      | waiterTimeoutG et2 pid =>
        rw [timerPidOk] at *
        exact ⟨by first | omega | (dsimp only; omega), ht.2.2⟩
    · simp only [List.mem_singleton] at hnew
      subst hnew
      refine ⟨by first | omega | (dsimp only; omega), ?_⟩
      rcases hkind with rfl | rfl
      · rw [timerPidOk]
        exact ⟨by first | omega | (dsimp only; omega),
          fun hm => by have := hsendBound _ hm; omega⟩
      · rw [timerPidOk]
        exact ⟨by first | omega | (dsimp only; omega),
          fun hm => by have := hsendBound _ hm; omega⟩
  · intro x hx
    rcases mem_setA hx with hold | hnew
    · have hw := hInv.wait x hold
      refine ⟨by first | omega | (dsimp only; omega), hw.2.1,
        by first | omega | (dsimp only; omega), ?_⟩
      intro k hk
      cases hlk : lookupA s.timers x.2.2 with
      | some k2 =>
        rw [lookupA_append_some hlk] at hk
        have hk2 : k2 = k := by injection hk
        cases hk2
        exact hw.2.2.2 _ hlk
      | none =>
        rw [lookupA_append_none _ hlk, lookupA_cons, if_neg (by
          have := hw.2.2.1
          first | omega | (dsimp only; omega))] at hk
        exact Option.noConfusion hk
    · subst hnew
      refine ⟨by first | omega | (dsimp only; omega),
        fun hm => by have := hsendBound _ hm; dsimp only at *; omega, ?_, ?_⟩
      · first | omega | (dsimp only; omega)
      · intro k hk
        have hlk : lookupA s.timers s.nextTimerId = none :=
          lookupA_none_of_bound (fun y hy => (hInv.timer y hy).1)
        rw [show ((et, s.nextPid, s.nextTimerId) : String × Nat × Nat).2.2 =
          s.nextTimerId from rfl] at hk
        rw [lookupA_append_none _ hlk, lookupA_cons, if_pos rfl] at hk
        have hkk : kind = k := by injection hk
        cases hkk
        rcases hkind with rfl | rfl
        · exact Or.inl rfl
        · exact Or.inr rfl
  · intro pid hp
    refine ⟨by have := hsendBound _ hp; first | omega | (dsimp only; omega), ?_⟩
    rcases (hInv.sendAcc pid hp).2 with h2 | h2
    · exact Or.inl h2
    · right
      rw [hne _ hp]
      exact h2
  · exact hInv.pendMid
  · intro x hx
    have := hbound x hx
    first | omega | (dsimp only; omega)


theorem inv_opWaitForEvent {s : WsState} (hInv : Inv s) (et : String) (g : Bool) :
    Inv (step s (WsEvent.opWaitForEvent et g)).1 := by
  simp only [step, SandboxWebSocket.waitForNextFutureWebSocketEvent]
  cases hpe : lookupA s.waiters et with
  | none =>
    cases g
    · dsimp only
      exact inv_waitRegister hInv et _ (Or.inl rfl) s.settled
        (fun pid o h => h) (fun pid _ => rfl) hInv.settledBound
    · dsimp only
      exact inv_waitRegister hInv et _ (Or.inr rfl) s.settled
        (fun pid o h => h) (fun pid _ => rfl) hInv.settledBound
  | some pe =>
    have hw := hInv.wait (et, pe) (lookupA_some_mem hpe)
    have hb : ∀ x ∈ settleFirst s.settled pe.1 (Outcome.rejected replacedMsg),
        x.1 < s.nextPid := by
      intro x hx
      rcases mem_settleFirst hx with hold | hnew
      · exact hInv.settledBound x hold
      · rw [hnew]
        exact hw.1
    have hnep : ∀ pid ∈ s.sendPids,
        lookupA (settleFirst s.settled pe.1 (Outcome.rejected replacedMsg)) pid =
          lookupA s.settled pid := by
      intro pid hp
      exact lookupA_settleFirst_ne _ (fun he => hw.2.1 (he ▸ hp))
    cases g
    · dsimp only
      exact inv_waitRegister hInv et _ (Or.inl rfl) _
        (fun pid o h => lookupA_settleFirst_of_some _ _ h) hnep hb
    · dsimp only
      exact inv_waitRegister hInv et _ (Or.inr rfl) _
        (fun pid o h => lookupA_settleFirst_of_some _ _ h) hnep hb


theorem inv_resolvePending {s : WsState} (hInv : Inv s) {mid : Nat} {pt : Nat × Nat}
    (hlp : lookupA s.pending mid = some pt) (o : Outcome) :
    Inv { s with
      timers := eraseA s.timers pt.2
      pending := eraseA s.pending mid
      settled := settleFirst s.settled pt.1 o } := by
  have hmem : (mid, pt) ∈ s.pending := lookupA_some_mem hlp
  have hp := hInv.pend _ hmem
  dsimp only at hp
  rcases hp.2.2.2.2 with ⟨et0, hlink0⟩
  constructor
  · exact hInv.pendKeysNodup.sublist ((eraseA_sublist _ _).map _)
  · exact hInv.pendPidsNodup.sublist ((eraseA_sublist _ _).map _)
  · exact hInv.timerKeysNodup.sublist ((eraseA_sublist _ _).map _)
  · intro x hx
    have hel := mem_eraseA_elim hInv.pendKeysNodup hx
    have hpx := hInv.pend x hel.1
    have hxne : x ≠ (mid, pt) := fun he => hel.2 (by rw [he])
    have hpidne : pt.1 ≠ x.2.1 := by
      intro he
      exact hxne (List.inj_on_of_nodup_map hInv.pendPidsNodup hel.1 hmem he.symm)
    have htidne : pt.2 ≠ x.2.2 := by
      intro he
      rcases hpx.2.2.2.2 with ⟨et2, hlink2⟩
      rw [← he, hlink0] at hlink2
      have h7 : TimerKind.requestTimeout mid pt.1 et0 =
          TimerKind.requestTimeout x.1 x.2.1 et2 := by injection hlink2
      injection h7 with ha hb hc
      exact hel.2 ha.symm
    refine ⟨hpx.1, hpx.2.1, ?_, hpx.2.2.2.1, ?_⟩
    · rw [lookupA_settleFirst_ne _ hpidne]
      exact hpx.2.2.1
    · rcases hpx.2.2.2.2 with ⟨et2, hlink2⟩
      exact ⟨et2, by rw [lookupA_eraseA_ne htidne]; exact hlink2⟩
  · intro x hx
    have hel := mem_eraseA_elim hInv.timerKeysNodup hx
    have htx := hInv.timer x hel.1
    refine ⟨htx.1, ?_⟩
    rcases x with ⟨tid, k⟩
    cases k with
    | requestTimeout mid2 pid2 et2 =>
      rw [timerPidOk] at *
      have hmidne : mid2 ≠ mid := by
        intro he
        rw [he, hlp] at htx
        have h5 : pt = (pid2, tid) := by
          have := htx.2
          injection this
        rw [h5] at hel
        exact hel.2 rfl
      dsimp only
      rw [lookupA_eraseA_ne (fun he => hmidne he.symm)]
      exact htx.2
    | waiterTimeout et2 pid2 =>
      rw [timerPidOk] at *
      exact htx.2
    | waiterTimeoutG et2 pid2 =>
      rw [timerPidOk] at *
      exact htx.2
  · intro x hx
    have hw := hInv.wait x hx
    refine ⟨hw.1, hw.2.1, hw.2.2.1, ?_⟩
    intro k hk
    exact hw.2.2.2 k (lookupA_eraseA_some hInv.timerKeysNodup hk)
  · intro pid hpm
    have ha := hInv.sendAcc pid hpm
    refine ⟨ha.1, ?_⟩
    by_cases hpe : pid = pt.1
    · subst hpe
      right
      rw [lookupA_settleFirst_of_none _ hp.2.2.1]
      rfl
    · rcases ha.2 with h2 | h2
      · left
        rcases List.mem_map.1 h2 with ⟨y, hy, hye⟩
        have hyne : y ≠ (mid, pt) := by
          intro he
          rw [he] at hye
          exact hpe hye.symm
        have hkeyne : y.1 ≠ mid := by
          intro he
          exact hyne (List.inj_on_of_nodup_map hInv.pendKeysNodup hy hmem he)
        exact List.mem_map.2 ⟨y, mem_eraseA_of_mem hy hkeyne, hye⟩
      · right
        rw [lookupA_settleFirst_ne _ (fun he => hpe he.symm)]
        exact h2
  · intro x hx
    exact hInv.pendMid x (mem_eraseA_elim hInv.pendKeysNodup hx).1
  · intro x hx
    rcases mem_settleFirst hx with hold | hnew
    · exact hInv.settledBound x hold
    · rw [hnew]
      exact hp.1

theorem inv_resolveWaiter {s : WsState} (hInv : Inv s) {ev : String} {pt : Nat × Nat}
    (hlw : lookupA s.waiters ev = some pt) (o : Outcome) :
    Inv { s with
      timers := eraseA s.timers pt.2
      waiters := eraseA s.waiters ev
      settled := settleFirst s.settled pt.1 o } := by
  have hmem : (ev, pt) ∈ s.waiters := lookupA_some_mem hlw
  have hw := hInv.wait _ hmem
  dsimp only at hw
  constructor
  · exact hInv.pendKeysNodup
  · exact hInv.pendPidsNodup
  · exact hInv.timerKeysNodup.sublist ((eraseA_sublist _ _).map _)
  · intro x hx
    have hpx := hInv.pend x hx
    have hpidne : pt.1 ≠ x.2.1 := by
      intro he
      refine hw.2.1 ?_
      rw [he]
      exact hpx.2.1
    have htidne : pt.2 ≠ x.2.2 := by
      intro he
      rcases hpx.2.2.2.2 with ⟨et2, hlink2⟩
      rw [← he] at hlink2
      rcases hw.2.2.2 _ hlink2 with h3 | h3 <;> cases h3
    refine ⟨hpx.1, hpx.2.1, ?_, hpx.2.2.2.1, ?_⟩
    · rw [lookupA_settleFirst_ne _ hpidne]
      exact hpx.2.2.1
    · rcases hpx.2.2.2.2 with ⟨et2, hlink2⟩
      exact ⟨et2, by rw [lookupA_eraseA_ne htidne]; exact hlink2⟩
  · intro x hx
    have htx := hInv.timer x (mem_of_mem_eraseA hx)
    refine ⟨htx.1, ?_⟩
    rcases x with ⟨tid, k⟩
    cases k with
    | requestTimeout mid2 pid2 et2 =>
      rw [timerPidOk] at *
      exact htx.2
    | waiterTimeout et2 pid2 =>
      rw [timerPidOk] at *
      exact htx.2
    | waiterTimeoutG et2 pid2 =>
      rw [timerPidOk] at *
      exact htx.2
  · intro x hx
    have hwx := hInv.wait x (mem_of_mem_eraseA hx)
    refine ⟨hwx.1, hwx.2.1, hwx.2.2.1, ?_⟩
    intro k hk
    exact hwx.2.2.2 k (lookupA_eraseA_some hInv.timerKeysNodup hk)
  · intro pid hpm
    have ha := hInv.sendAcc pid hpm
    refine ⟨ha.1, ?_⟩
    rcases ha.2 with h2 | h2
    · exact Or.inl h2
    · right
      rw [lookupA_settleFirst_ne _ (fun he => hw.2.1 (by rw [he]; exact hpm))]
      exact h2
  · exact hInv.pendMid
  · intro x hx
    rcases mem_settleFirst hx with hold | hnew
    · exact hInv.settledBound x hold
    · rw [hnew]
      exact hw.1

theorem inv_inbound {s : WsState} (hInv : Inv s) (m : InMessage) :
    Inv (step s (WsEvent.inbound m)).1 := by
  by_cases hws : s.wsPresent = true
  case neg =>
    simp only [Bool.not_eq_true] at hws
    simp only [step, hws]
    exact hInv
  case pos =>
  have hstep : step s (WsEvent.inbound m) = SandboxWebSocket.onMessage s m := by
    simp only [step]
    rw [if_pos hws]
  rw [hstep]
  rcases m with ⟨mid, pay⟩
  cases pay with
  | stream t pr det =>
    simp only [SandboxWebSocket.onMessage]
    cases hh : lookupA s.handlers t with
    | none =>
      simp only [hh]
      exact hInv
    | some hd =>
      simp only [hh]
      cases det with
      | io so se => exact hInv
      | close code err =>
        dsimp only
        exact inv_congr hInv rfl rfl rfl rfl rfl rfl rfl rfl
  | plain et d =>
    simp only [SandboxWebSocket.onMessage]
    cases hlp : lookupA s.pending mid with
    | some pt =>
      simp only [hlp]
      exact inv_resolvePending hInv hlp _
    | none =>
      simp only [hlp]
      cases hlw : lookupA s.waiters (InPayload.plain et d).eventType with
      | some pt =>
        simp only [hlw]
        exact inv_resolveWaiter hInv hlw _
      | none =>
        simp only [hlw]
        exact hInv

theorem inv_waiterFire {s : WsState} (hInv : Inv s) {tid : Nat} {et : String} {pid : Nat}
    {k : TimerKind} (hlt : lookupA s.timers tid = some k)
    (hk : k = TimerKind.waiterTimeout et pid ∨ k = TimerKind.waiterTimeoutG et pid) :
    Inv { s with
      timers := eraseA s.timers tid
      waiters := eraseA s.waiters et
      settled := settleFirst s.settled pid (Outcome.rejected (waiterTimeoutMsg et)) } := by
  have hmem : (tid, k) ∈ s.timers := lookupA_some_mem hlt
  have hpk : pid < s.nextPid ∧ pid ∉ s.sendPids := by
    have h2 := (hInv.timer _ hmem).2
    rcases hk with rfl | rfl
    · rw [timerPidOk] at h2
      exact h2
    · rw [timerPidOk] at h2
      exact h2
  constructor
  · exact hInv.pendKeysNodup
  · exact hInv.pendPidsNodup
  · exact hInv.timerKeysNodup.sublist ((eraseA_sublist _ _).map _)
  · intro x hx
    have hpx := hInv.pend x hx
    have hpidne : pid ≠ x.2.1 := by
      intro he
      refine hpk.2 ?_
      rw [he]
      exact hpx.2.1
    have htidne : tid ≠ x.2.2 := by
      intro he
      rcases hpx.2.2.2.2 with ⟨et2, hlink2⟩
      rw [← he, hlt] at hlink2
      injection hlink2 with hh
      rcases hk with rfl | rfl <;> cases hh
    refine ⟨hpx.1, hpx.2.1, ?_, hpx.2.2.2.1, ?_⟩
    · rw [lookupA_settleFirst_ne _ hpidne]
      exact hpx.2.2.1
    · rcases hpx.2.2.2.2 with ⟨et2, hlink2⟩
      exact ⟨et2, by rw [lookupA_eraseA_ne htidne]; exact hlink2⟩
  · intro x hx
    have htx := hInv.timer x (mem_of_mem_eraseA hx)
    refine ⟨htx.1, ?_⟩
    rcases x with ⟨tid2, k2⟩
    cases k2 with
    | requestTimeout mid2 pid2 et2 =>
      rw [timerPidOk] at *
      exact htx.2
    | waiterTimeout et2 pid2 =>
      rw [timerPidOk] at *
      exact htx.2
    | waiterTimeoutG et2 pid2 =>
      rw [timerPidOk] at *
      exact htx.2
  · intro x hx
    have hwx := hInv.wait x (mem_of_mem_eraseA hx)
    refine ⟨hwx.1, hwx.2.1, hwx.2.2.1, ?_⟩
    intro k2 hk2
    exact hwx.2.2.2 k2 (lookupA_eraseA_some hInv.timerKeysNodup hk2)
  · intro p hp
    have ha := hInv.sendAcc p hp
    refine ⟨ha.1, ?_⟩
    rcases ha.2 with h2 | h2
    · exact Or.inl h2
    · right
      rw [lookupA_settleFirst_ne _ (fun he => hpk.2 (by rw [he]; exact hp))]
      exact h2
  · exact hInv.pendMid
  · intro x hx
    rcases mem_settleFirst hx with hold | hnew
    · exact hInv.settledBound x hold
    · rw [hnew]
      exact hpk.1

theorem inv_eraseTimerG {s : WsState} (hInv : Inv s) {tid : Nat} {et : String} {pid : Nat}
    (hlt : lookupA s.timers tid = some (TimerKind.waiterTimeoutG et pid)) :
    Inv { s with timers := eraseA s.timers tid } := by
  constructor
  · exact hInv.pendKeysNodup
  · exact hInv.pendPidsNodup
  · exact hInv.timerKeysNodup.sublist ((eraseA_sublist _ _).map _)
  · intro x hx
    have hpx := hInv.pend x hx
    have htidne : tid ≠ x.2.2 := by
      intro he
      rcases hpx.2.2.2.2 with ⟨et2, hlink2⟩
      rw [← he, hlt] at hlink2
      injection hlink2 with hh
      cases hh
    refine ⟨hpx.1, hpx.2.1, hpx.2.2.1, hpx.2.2.2.1, ?_⟩
    rcases hpx.2.2.2.2 with ⟨et2, hlink2⟩
    exact ⟨et2, by rw [lookupA_eraseA_ne htidne]; exact hlink2⟩
  · intro x hx
    have htx := hInv.timer x (mem_of_mem_eraseA hx)
    refine ⟨htx.1, ?_⟩
    rcases x with ⟨tid2, k2⟩
    cases k2 with
    | requestTimeout mid2 pid2 et2 =>
      rw [timerPidOk] at *
      exact htx.2
    | waiterTimeout et2 pid2 =>
      rw [timerPidOk] at *
      exact htx.2
    | waiterTimeoutG et2 pid2 =>
      rw [timerPidOk] at *
      exact htx.2
  · intro x hx
    have hwx := hInv.wait x hx
    refine ⟨hwx.1, hwx.2.1, hwx.2.2.1, ?_⟩
    intro k2 hk2
    exact hwx.2.2.2 k2 (lookupA_eraseA_some hInv.timerKeysNodup hk2)
  · exact hInv.sendAcc
  · exact hInv.pendMid
  · exact hInv.settledBound

theorem inv_fireTimer {s : WsState} (hInv : Inv s) (tid : Nat) :
    Inv (step s (WsEvent.fireTimer tid)).1 := by
  cases hlt : lookupA s.timers tid with
  | none =>
    simp only [step, SandboxWebSocket.fireTimer, hlt]
    exact hInv
  | some k =>
    cases k with
    | requestTimeout mid pid et =>
      simp only [step, SandboxWebSocket.fireTimer, hlt]
      have hlp : lookupA s.pending mid = some (pid, tid) := by
        have h2 := (hInv.timer _ (lookupA_some_mem hlt)).2
        rw [timerPidOk] at h2
        exact h2
      exact inv_resolvePending hInv hlp (Outcome.rejected (requestTimeoutMsg et))
    | waiterTimeout et pid =>
      simp only [step, SandboxWebSocket.fireTimer, hlt]
      exact inv_waiterFire hInv hlt (Or.inl rfl)
    | waiterTimeoutG et pid =>
      simp only [step, SandboxWebSocket.fireTimer, hlt]
      cases hlw : lookupA s.waiters et with
      | none =>
        simp only [hlw]
        exact inv_eraseTimerG hInv hlt
      | some pt =>
        simp only [hlw]
        by_cases hpe : pt.1 = pid
        · rw [if_pos hpe]
          exact inv_waiterFire hInv hlt (Or.inr rfl)
        · rw [if_neg hpe]
          exact inv_eraseTimerG hInv hlt

theorem inv_step {s : WsState} (hInv : Inv s) (e : WsEvent) : Inv (step s e).1 := by
  cases e with
  | opSend et d => exact inv_opSend hInv et d
  | opWaitForEvent et g => exact inv_opWaitForEvent hInv et g
  | opAddHandler t h => exact inv_congr hInv rfl rfl rfl rfl rfl rfl rfl rfl
  | opDisconnect => exact inv_cleanDirty (inv_congr hInv rfl rfl rfl rfl rfl rfl rfl rfl)
  | opDisconnectV3 => exact inv_cleanDirty hInv
  | opDisableAutoReconnect => exact inv_congr hInv rfl rfl rfl rfl rfl rfl rfl rfl
  | opConnect =>
    by_cases hc : s.connectionState = ConnState.connected
    · simp only [step, SandboxWebSocket.connect, if_pos hc]
      exact hInv
    · simp only [step, SandboxWebSocket.connect, if_neg hc]
      exact inv_congr hInv rfl rfl rfl rfl rfl rfl rfl rfl
  | transportOpen =>
    by_cases hw : s.wsPresent = true
    · have hstep : step s WsEvent.transportOpen = SandboxWebSocket.onOpen s := by
        simp only [step]
        rw [if_pos hw]
      rw [hstep]
      exact inv_congr hInv rfl rfl rfl rfl rfl rfl rfl rfl
    · simp only [Bool.not_eq_true] at hw
      simp only [step, hw]
      exact hInv
  | transportClose =>
    by_cases hw : s.wsPresent = true
    · have hstep : step s WsEvent.transportClose = SandboxWebSocket.onClose s := by
        simp only [step]
        rw [if_pos hw]
      rw [hstep]
      exact inv_cleanDirty (inv_congr hInv rfl rfl rfl rfl rfl rfl rfl rfl)
    · simp only [Bool.not_eq_true] at hw
      simp only [step, hw]
      exact hInv
  | inbound m => exact inv_inbound hInv m
  | fireTimer tid => exact inv_fireTimer hInv tid

theorem inv_run {s : WsState} (hInv : Inv s) (tr : List WsEvent) : Inv (run s tr).1 := by
  induction tr generalizing s with
  | nil => exact hInv
  | cons e es ih => exact ih (inv_step hInv e)

theorem step_pids (s : WsState) (e : WsEvent) :
    s.nextPid ≤ (step s e).1.nextPid ∧
    ((step s e).1.sendPids = s.sendPids ∨
      ((step s e).1.sendPids = s.sendPids ++ [s.nextPid] ∧
        (step s e).1.settled = s.settled ∧
        (∀ p o, WsAction.settle p o ∉ (step s e).2))) := by
  cases e with
  | opSend et d =>
    refine ⟨?_, Or.inr ⟨?_, ?_, ?_⟩⟩
    · simp only [step, SandboxWebSocket.send, SandboxWebSocket.sendSingleMessage]
      split
      · exact Nat.le_succ _
      · exact Nat.le_succ _
    · simp only [step, SandboxWebSocket.send, SandboxWebSocket.sendSingleMessage]
      split
      · rfl
      · rfl
    · simp only [step, SandboxWebSocket.send, SandboxWebSocket.sendSingleMessage]
      split
      · rfl
      · rfl
    · intro p o
      simp only [step, SandboxWebSocket.send, SandboxWebSocket.sendSingleMessage]
      split
      · simp
      · simp
  | opWaitForEvent et g => exact ⟨Nat.le_succ _, Or.inl rfl⟩
  | opAddHandler t h => exact ⟨Nat.le_refl _, Or.inl (by first | rfl | trivial)⟩
  | opDisconnect => exact ⟨Nat.le_refl _, Or.inl (by first | rfl | trivial)⟩
  | opDisconnectV3 => exact ⟨Nat.le_refl _, Or.inl (by first | rfl | trivial)⟩
  | opDisableAutoReconnect => exact ⟨Nat.le_refl _, Or.inl (by first | rfl | trivial)⟩
  | opConnect =>
    simp only [step, SandboxWebSocket.connect]
    split
    · exact ⟨Nat.le_refl _, Or.inl (by first | rfl | trivial)⟩
    · exact ⟨Nat.le_refl _, Or.inl (by first | rfl | trivial)⟩
  | transportOpen =>
    simp only [step]
    split
    · exact ⟨Nat.le_refl _, Or.inl (by first | rfl | trivial)⟩
    · exact ⟨Nat.le_refl _, Or.inl (by first | rfl | trivial)⟩
  | transportClose =>
    simp only [step]
    split
    · exact ⟨Nat.le_refl _, Or.inl (by first | rfl | trivial)⟩
    · exact ⟨Nat.le_refl _, Or.inl (by first | rfl | trivial)⟩
  | inbound m =>
    simp only [step]
    by_cases hw : s.wsPresent = true
    · rw [if_pos hw]
      rcases m with ⟨mid, pay⟩
      cases pay with
      | stream t pr det =>
        simp only [SandboxWebSocket.onMessage]
        cases lookupA s.handlers t with
        | none => exact ⟨Nat.le_refl _, Or.inl (by first | rfl | trivial)⟩
        | some hd =>
          cases det with
          | io so se => exact ⟨Nat.le_refl _, Or.inl (by first | rfl | trivial)⟩
          | close c err => exact ⟨Nat.le_refl _, Or.inl (by first | rfl | trivial)⟩
      | plain et d =>
        simp only [SandboxWebSocket.onMessage]
        cases lookupA s.pending mid with
        | some pt => exact ⟨Nat.le_refl _, Or.inl (by first | rfl | trivial)⟩
        | none =>
          cases lookupA s.waiters (InPayload.plain et d).eventType with
          | some pt => exact ⟨Nat.le_refl _, Or.inl (by first | rfl | trivial)⟩
          | none => exact ⟨Nat.le_refl _, Or.inl (by first | rfl | trivial)⟩
    · rw [if_neg hw]
      exact ⟨Nat.le_refl _, Or.inl (by first | rfl | trivial)⟩
  | fireTimer tid =>
    cases hlt : lookupA s.timers tid with
    | none =>
      simp only [step, SandboxWebSocket.fireTimer, hlt]
      exact ⟨Nat.le_refl _, Or.inl (by first | rfl | trivial)⟩
    | some k =>
      cases k with
      | requestTimeout mid pid et =>
        simp only [step, SandboxWebSocket.fireTimer, hlt]
        exact ⟨Nat.le_refl _, Or.inl (by first | rfl | trivial)⟩
      | waiterTimeout et pid =>
        simp only [step, SandboxWebSocket.fireTimer, hlt]
        exact ⟨Nat.le_refl _, Or.inl (by first | rfl | trivial)⟩
      | waiterTimeoutG et pid =>
        simp only [step, SandboxWebSocket.fireTimer, hlt]
        cases hlw : lookupA s.waiters et with
        | none =>
          simp only [hlw]
          exact ⟨Nat.le_refl _, Or.inl (by first | rfl | trivial)⟩
        | some pt =>
          simp only [hlw]
          by_cases hpe : pt.1 = pid
          · rw [if_pos hpe]
            exact ⟨Nat.le_refl _, Or.inl (by first | rfl | trivial)⟩
          · rw [if_neg hpe]
            exact ⟨Nat.le_refl _, Or.inl (by first | rfl | trivial)⟩

theorem step_sendPids_mono {s : WsState} (e : WsEvent) {pid : Nat}
    (h : pid ∈ s.sendPids) : pid ∈ (step s e).1.sendPids := by
  rcases (step_pids s e).2 with he | ⟨he, _, _⟩
  · rw [he]
    exact h
  · rw [he]
    exact List.mem_append_left _ h

theorem step_nextPid_mono (s : WsState) (e : WsEvent) :
    s.nextPid ≤ (step s e).1.nextPid :=
  (step_pids s e).1

theorem step_sendPids_origin {s : WsState} {e : WsEvent} {pid : Nat}
    (h : pid ∈ (step s e).1.sendPids) : pid ∈ s.sendPids ∨ s.nextPid ≤ pid := by
  rcases (step_pids s e).2 with he | ⟨he, _, _⟩
  · rw [he] at h
    exact Or.inl h
  · rw [he] at h
    rcases List.mem_append.1 h with h2 | h2
    · exact Or.inl h2
    · right
      have hp : pid = s.nextPid := by simpa using h2
      omega

theorem run_sendPids_origin {pid : Nat} (tr : List WsEvent) (s : WsState)
    (h : pid ∈ (run s tr).1.sendPids) : pid ∈ s.sendPids ∨ s.nextPid ≤ pid := by
  induction tr generalizing s with
  | nil => exact Or.inl h
  | cons e es ih =>
    rcases ih (step s e).1 h with h2 | h2
    · exact step_sendPids_origin h2
    · right
      have h3 := step_nextPid_mono s e
      omega

theorem step_fresh_send {s : WsState} (hInv : Inv s) (e : WsEvent) {pid : Nat}
    (h1 : pid ∉ s.sendPids) (h2 : pid ∈ (step s e).1.sendPids) :
    (∀ o, WsAction.settle pid o ∉ (step s e).2) ∧
    lookupA (step s e).1.settled pid = none := by
  rcases (step_pids s e).2 with he | ⟨he, hst, hacts⟩
  · rw [he] at h2
    exact absurd h2 h1
  · rw [he] at h2
    have hp : pid = s.nextPid := by
      rcases List.mem_append.1 h2 with h3 | h3
      · exact absurd h3 h1
      · simpa using h3
    refine ⟨fun o => hacts pid o, ?_⟩
    rw [hst, hp]
    exact lookupA_none_of_bound hInv.settledBound

theorem settleFirst_isSome_self (st : List (Nat × Outcome)) (q : Nat) (o : Outcome) :
    (lookupA (settleFirst st q o) q).isSome = true := by
  cases hq : lookupA st q with
  | none =>
    rw [lookupA_settleFirst_of_none _ hq]
    rfl
  | some o2 =>
    rw [lookupA_settleFirst_of_some _ _ hq]
    rfl

theorem lookupA_settleFirst_isSome {st : List (Nat × Outcome)} {q p : Nat} {o : Outcome}
    (h : (lookupA (settleFirst st q o) p).isSome = true) :
    (lookupA st p).isSome = true ∨ p = q := by
  by_cases hpq : p = q
  · exact Or.inr hpq
  · left
    rw [lookupA_settleFirst_ne _ (fun he => hpq he.symm)] at h
    exact h

theorem rejectEntries_settled_gain {st : List (Nat × Outcome)} {p : Nat}
    {tm : List (Nat × TimerKind)} {entries : List (Nat × Nat)}
    (h : (lookupA (SandboxWebSocket.rejectEntries st tm entries).1 p).isSome = true) :
    (lookupA st p).isSome = true ∨ p ∈ entries.map (fun x => x.1) := by
  induction entries generalizing st tm with
  | nil => exact Or.inl h
  | cons e rest ih =>
    have h2 : (lookupA (SandboxWebSocket.rejectEntries
        (settleFirst st e.1 (Outcome.rejected wsClosedMsg))
        (eraseA tm e.2) rest).1 p).isSome = true := h
    rcases ih h2 with h3 | h3
    · rcases lookupA_settleFirst_isSome h3 with h4 | h4
      · exact Or.inl h4
      · right
        rw [h4]
        exact List.mem_cons_self _ _
    · right
      exact List.mem_cons_of_mem _ h3

theorem countSettles_append (pid : Nat) (a b : List WsAction) :
    countSettles pid (a ++ b) = countSettles pid a + countSettles pid b := by
  simp [countSettles, List.filter_append]

theorem countSettles_eq_zero {pid : Nat} {acts : List WsAction}
    (h : ∀ o, WsAction.settle pid o ∉ acts) : countSettles pid acts = 0 := by
  rw [countSettles, List.length_eq_zero, List.filter_eq_nil]
  intro a ha
  cases a with
  | settle p o =>
    simp only [beq_iff_eq]
    intro he
    rw [he] at ha
    exact h o ha
  | transportSend m => simp
  | closeTransport => simp
  | chunkOut t v => simp
  | chunkErr t v => simp
  | closeCb t c => simp

theorem countSettles_pos {pid : Nat} {o : Outcome} {acts : List WsAction}
    (h : WsAction.settle pid o ∈ acts) : 1 ≤ countSettles pid acts := by
  rw [countSettles]
  have hm : WsAction.settle pid o ∈ acts.filter (fun a =>
      match a with
      | WsAction.settle p _ => p == pid
      | _ => false) := List.mem_filter.2 ⟨h, by simp⟩
  exact List.length_pos.2 (List.ne_nil_of_mem hm)

theorem countSettles_le_length (pid : Nat) (acts : List WsAction) :
    countSettles pid acts ≤ acts.length :=
  List.length_filter_le _ _

theorem countSettles_map_settle (pid : Nat) (o : Outcome) (l : List (Nat × Nat)) :
    countSettles pid (l.map (fun x => WsAction.settle x.1 o)) =
      l.countP (fun x => x.1 == pid) := by
  rw [countSettles, ← List.countP_eq_length_filter, List.countP_map]
  rfl

theorem countP_fst_le_one {l : List (Nat × Nat)} (h : (l.map (fun x => x.1)).Nodup)
    (pid : Nat) : l.countP (fun x => x.1 == pid) ≤ 1 := by
  induction l with
  | nil => simp
  | cons x xs ih =>
    simp only [List.map_cons, List.nodup_cons] at h
    rw [List.countP_cons]
    by_cases hp : x.1 = pid
    · have h0 : xs.countP (fun y => y.1 == pid) = 0 := by
        rw [List.countP_eq_zero]
        intro y hy
        simp only [beq_iff_eq]
        intro he
        exact h.1 (List.mem_map.2 ⟨y, hy, by rw [he, hp]⟩)
      rw [h0]
      simp [hp]
    · simp only [beq_iff_eq, hp, if_false]
      simpa using ih h.2

theorem countP_fst_eq_zero {l : List (Nat × Nat)} {pid : Nat}
    (h : ∀ x ∈ l, ¬ x.1 = pid) : l.countP (fun x => x.1 == pid) = 0 := by
  rw [List.countP_eq_zero]
  intro y hy
  simp [h y hy]

theorem cleanDirty_settle_recorded {s : WsState} {p : Nat} {o : Outcome}
    (h : WsAction.settle p o ∈ (SandboxWebSocket.cleanDirtyWebSocketIfPresent s).2) :
    (lookupA (SandboxWebSocket.cleanDirtyWebSocketIfPresent s).1.settled p).isSome = true ∧
    o = Outcome.rejected wsClosedMsg ∧
    (p ∈ pendingPids s ∨ p ∈ s.waiters.map (fun x => x.2.1)) := by
  rw [cleanDirty_acts] at h
  rcases List.mem_append.1 h with h1 | h1
  · rcases List.mem_append.1 h1 with h2 | h2
    · exfalso
      split at h2
      · simp at h2
      · simp at h2
    · rcases List.mem_map.1 h2 with ⟨x, hx, hxe⟩
      have hxe2 : WsAction.settle x.2.1 (Outcome.rejected wsClosedMsg) =
          WsAction.settle p o := hxe
      injection hxe2 with he1 he2
      refine ⟨?_, he2.symm, Or.inl (List.mem_map.2 ⟨x, hx, he1⟩)⟩
      have hkey : p ∈ (s.pending.map (fun y => y.2)).map (fun y => y.1) := by
        rw [List.map_map]
        exact List.mem_map.2 ⟨x, hx, he1⟩
      have hfst : (lookupA (SandboxWebSocket.rejectEntries s.settled s.timers
          (s.pending.map (fun y => y.2))).1 p).isSome = true := by
        cases hsp : lookupA s.settled p with
        | some o2 =>
          rw [rejectEntries_settled_of_some _ _ hsp]
          rfl
        | none =>
          rw [rejectEntries_settled_of_mem _ _ hsp hkey]
          rfl
      rcases Option.isSome_iff_exists.1 hfst with ⟨o2, ho2⟩
      have hfin : lookupA (SandboxWebSocket.cleanDirtyWebSocketIfPresent s).1.settled p =
          some o2 := rejectEntries_settled_of_some _ _ ho2
      rw [hfin]
      rfl
  · rcases List.mem_map.1 h1 with ⟨x, hx, hxe⟩
    have hxe2 : WsAction.settle x.2.1 (Outcome.rejected wsClosedMsg) =
        WsAction.settle p o := hxe
    injection hxe2 with he1 he2
    refine ⟨?_, he2.symm, Or.inr (List.mem_map.2 ⟨x, hx, he1⟩)⟩
    have hkey : p ∈ (s.waiters.map (fun y => y.2)).map (fun y => y.1) := by
      rw [List.map_map]
      exact List.mem_map.2 ⟨x, hx, he1⟩
    have hsnd : (lookupA (SandboxWebSocket.rejectEntries
        (SandboxWebSocket.rejectEntries s.settled s.timers (s.pending.map (fun y => y.2))).1
        (SandboxWebSocket.rejectEntries s.settled s.timers (s.pending.map (fun y => y.2))).2.1
        (s.waiters.map (fun y => y.2))).1 p).isSome = true := by
      cases hsp : lookupA (SandboxWebSocket.rejectEntries s.settled s.timers
          (s.pending.map (fun y => y.2))).1 p with
      | some o2 =>
        rw [rejectEntries_settled_of_some _ _ hsp]
        rfl
      | none =>
        rw [rejectEntries_settled_of_mem _ _ hsp hkey]
        rfl
    exact hsnd

theorem cleanDirty_settled_gain {s : WsState} {p : Nat}
    (h0 : lookupA s.settled p = none)
    (h1 : (lookupA (SandboxWebSocket.cleanDirtyWebSocketIfPresent s).1.settled p).isSome
      = true) :
    WsAction.settle p (Outcome.rejected wsClosedMsg) ∈
      (SandboxWebSocket.cleanDirtyWebSocketIfPresent s).2 := by
  have h1f : (lookupA (SandboxWebSocket.rejectEntries
      (SandboxWebSocket.rejectEntries s.settled s.timers (s.pending.map (fun y => y.2))).1
      (SandboxWebSocket.rejectEntries s.settled s.timers (s.pending.map (fun y => y.2))).2.1
      (s.waiters.map (fun y => y.2))).1 p).isSome = true := h1
  rw [cleanDirty_acts]
  rcases rejectEntries_settled_gain h1f with h2 | h2
  · rcases rejectEntries_settled_gain h2 with h3 | h3
    · rw [h0] at h3
      cases h3
    · rw [List.map_map] at h3
      rcases List.mem_map.1 h3 with ⟨x, hx, hxe⟩
      refine List.mem_append.2 (Or.inl (List.mem_append.2 (Or.inr ?_)))
      exact List.mem_map.2 ⟨x, hx, by rw [show x.2.1 = p from hxe]⟩
  · rw [List.map_map] at h2
    rcases List.mem_map.1 h2 with ⟨x, hx, hxe⟩
    refine List.mem_append.2 (Or.inr ?_)
    exact List.mem_map.2 ⟨x, hx, by rw [show x.2.1 = p from hxe]⟩

theorem step_settle_cases {s : WsState} (hInv : Inv s) {e : WsEvent} {p : Nat} {o : Outcome}
    (h : WsAction.settle p o ∈ (step s e).2) :
    p < s.nextPid ∧
    (lookupA (step s e).1.settled p).isSome = true ∧
    (p ∈ s.sendPids →
      lookupA s.settled p = none ∧ p ∈ pendingPids s ∧
      ((∃ m, e = WsEvent.inbound m ∧ o = Outcome.resolved m.payload) ∨
       (∃ tid et2, e = WsEvent.fireTimer tid ∧
         o = Outcome.rejected (requestTimeoutMsg et2)) ∨
       ((e = WsEvent.opDisconnect ∨ e = WsEvent.opDisconnectV3 ∨
          e = WsEvent.transportClose) ∧
         o = Outcome.rejected wsClosedMsg))) := by
  cases e with
  | opSend et d =>
    exfalso
    simp only [step, SandboxWebSocket.send, SandboxWebSocket.sendSingleMessage] at h
    split at h
    · simp at h
    · simp at h
  | opWaitForEvent et g =>
    cases hpr : lookupA s.waiters et with
    | none =>
      exfalso
      simp only [step, SandboxWebSocket.waitForNextFutureWebSocketEvent, hpr] at h
      simp at h
    | some pe =>
      simp only [step, SandboxWebSocket.waitForNextFutureWebSocketEvent, hpr] at h
      simp only [List.mem_singleton] at h
      have h2 : WsAction.settle pe.1 (Outcome.rejected replacedMsg) =
          WsAction.settle p o := h.symm
      injection h2 with he1 he2
      have hw := hInv.wait _ (lookupA_some_mem hpr)
      refine ⟨?_, ?_, ?_⟩
      · rw [← he1]
        exact hw.1
      · simp only [step, SandboxWebSocket.waitForNextFutureWebSocketEvent, hpr]
        rw [← he1]
        exact settleFirst_isSome_self _ _ _
      · intro hp
        exfalso
        rw [← he1] at hp
        exact hw.2.1 hp
  | opAddHandler t hh =>
    exfalso
    simp only [step, SandboxWebSocket.addStreamingTaskHandler] at h
    simp at h
  | opDisconnect =>
    have hc := cleanDirty_settle_recorded (s := { s with shouldAutoReconnect := false }) h
    refine ⟨?_, hc.1, ?_⟩
    · rcases hc.2.2 with h2 | h2
      · rcases List.mem_map.1 h2 with ⟨x, hx, hxe⟩
        rw [← hxe]
        exact (hInv.pend x hx).1
      · rcases List.mem_map.1 h2 with ⟨x, hx, hxe⟩
        rw [← hxe]
        exact (hInv.wait x hx).1
    · intro hp
      refine ⟨?_, ?_, Or.inr (Or.inr ⟨Or.inl rfl, hc.2.1⟩)⟩
      · rcases hc.2.2 with h2 | h2
        · rcases List.mem_map.1 h2 with ⟨x, hx, hxe⟩
          rw [← hxe]
          exact (hInv.pend x hx).2.2.1
        · exfalso
          rcases List.mem_map.1 h2 with ⟨x, hx, hxe⟩
          refine (hInv.wait x hx).2.1 ?_
          rw [hxe]
          exact hp
      · rcases hc.2.2 with h2 | h2
        · exact h2
        · exfalso
          rcases List.mem_map.1 h2 with ⟨x, hx, hxe⟩
          refine (hInv.wait x hx).2.1 ?_
          rw [hxe]
          exact hp
  | opDisconnectV3 =>
    have hc := cleanDirty_settle_recorded (s := s) h
    refine ⟨?_, hc.1, ?_⟩
    · rcases hc.2.2 with h2 | h2
      · rcases List.mem_map.1 h2 with ⟨x, hx, hxe⟩
        rw [← hxe]
        exact (hInv.pend x hx).1
      · rcases List.mem_map.1 h2 with ⟨x, hx, hxe⟩
        rw [← hxe]
        exact (hInv.wait x hx).1
    · intro hp
      refine ⟨?_, ?_, Or.inr (Or.inr ⟨Or.inr (Or.inl rfl), hc.2.1⟩)⟩
      · rcases hc.2.2 with h2 | h2
        · rcases List.mem_map.1 h2 with ⟨x, hx, hxe⟩
          rw [← hxe]
          exact (hInv.pend x hx).2.2.1
        · exfalso
          rcases List.mem_map.1 h2 with ⟨x, hx, hxe⟩
          refine (hInv.wait x hx).2.1 ?_
          rw [hxe]
          exact hp
      · rcases hc.2.2 with h2 | h2
        · exact h2
        · exfalso
          rcases List.mem_map.1 h2 with ⟨x, hx, hxe⟩
          refine (hInv.wait x hx).2.1 ?_
          rw [hxe]
          exact hp
  | opDisableAutoReconnect =>
    exfalso
    simp only [step, SandboxWebSocket.disableWsAutoReconnect] at h
    simp at h
  | opConnect =>
    exfalso
    simp only [step, SandboxWebSocket.connect] at h
    split at h
    · simp at h
    · simp at h
  | transportOpen =>
    exfalso
    simp only [step] at h
    split at h
    · simp only [SandboxWebSocket.onOpen] at h
      rcases List.mem_map.1 h with ⟨m2, hm2, hme⟩
      have h3 : WsAction.transportSend m2 = WsAction.settle p o := hme
      cases h3
    · simp at h
  | transportClose =>
    by_cases hw : s.wsPresent = true
    case neg =>
      exfalso
      simp only [Bool.not_eq_true] at hw
      simp only [step, hw] at h
      simp at h
    case pos =>
    have hstep : step s WsEvent.transportClose = SandboxWebSocket.onClose s := by
      simp only [step]
      rw [if_pos hw]
    rw [hstep] at h ⊢
    have hc := cleanDirty_settle_recorded
      (s := { s with connectionState := ConnState.disconnected }) h
    refine ⟨?_, hc.1, ?_⟩
    · rcases hc.2.2 with h2 | h2
      · rcases List.mem_map.1 h2 with ⟨x, hx, hxe⟩
        rw [← hxe]
        exact (hInv.pend x hx).1
      · rcases List.mem_map.1 h2 with ⟨x, hx, hxe⟩
        rw [← hxe]
        exact (hInv.wait x hx).1
    · intro hp
      refine ⟨?_, ?_, Or.inr (Or.inr ⟨Or.inr (Or.inr rfl), hc.2.1⟩)⟩
      · rcases hc.2.2 with h2 | h2
        · rcases List.mem_map.1 h2 with ⟨x, hx, hxe⟩
          rw [← hxe]
          exact (hInv.pend x hx).2.2.1
        · exfalso
          rcases List.mem_map.1 h2 with ⟨x, hx, hxe⟩
          refine (hInv.wait x hx).2.1 ?_
          rw [hxe]
          exact hp
      · rcases hc.2.2 with h2 | h2
        · exact h2
        · exfalso
          rcases List.mem_map.1 h2 with ⟨x, hx, hxe⟩
          refine (hInv.wait x hx).2.1 ?_
          rw [hxe]
          exact hp
  | inbound m =>
    by_cases hw : s.wsPresent = true
    case neg =>
      exfalso
      simp only [Bool.not_eq_true] at hw
      simp only [step, hw] at h
      simp at h
    case pos =>
    have hstep : step s (WsEvent.inbound m) = SandboxWebSocket.onMessage s m := by
      simp only [step]
      rw [if_pos hw]
    rw [hstep] at h ⊢
    rcases m with ⟨mid, pay⟩
    cases pay with
    | stream t pr det =>
      exfalso
      simp only [SandboxWebSocket.onMessage] at h
      cases hh : lookupA s.handlers t with
      | none =>
        simp only [hh] at h
        simp at h
      | some hd =>
        simp only [hh] at h
        cases det with
        | io so se =>
          dsimp only at h
          rcases List.mem_append.1 h with h2 | h2
          · cases so with
            | none => simp at h2
            | some v =>
              cases hso : hd.onStdout with
              | true => simp [hso] at h2
              | false => simp [hso] at h2
          · cases se with
            | none => simp at h2
            | some v =>
              cases hse : hd.onStderr with
              | true => simp [hse] at h2
              | false => simp [hse] at h2
        | close c err =>
          dsimp only at h
          cases hoc : hd.onClose with
          | true => simp [hoc] at h
          | false => simp [hoc] at h
    | plain et d =>
      simp only [SandboxWebSocket.onMessage] at h
      cases hlp : lookupA s.pending mid with
      | some pt =>
        simp only [hlp] at h
        simp only [List.mem_singleton] at h
        have h2 : WsAction.settle pt.1 (Outcome.resolved (InPayload.plain et d)) =
            WsAction.settle p o := h.symm
        injection h2 with he1 he2
        have hmem : (mid, pt) ∈ s.pending := lookupA_some_mem hlp
        have hp := hInv.pend _ hmem
        dsimp only at hp
        refine ⟨?_, ?_, ?_⟩
        · rw [← he1]
          exact hp.1
        · simp only [SandboxWebSocket.onMessage, hlp]
          rw [← he1]
          exact settleFirst_isSome_self _ _ _
        · intro hpm
          refine ⟨?_, ?_, Or.inl ⟨⟨mid, InPayload.plain et d⟩, rfl, he2.symm⟩⟩
          · rw [← he1]
            exact hp.2.2.1
          · rw [← he1]
            exact List.mem_map.2 ⟨(mid, pt), hmem, rfl⟩
      | none =>
        simp only [hlp] at h
        cases hlw : lookupA s.waiters (InPayload.plain et d).eventType with
        | none =>
          exfalso
          simp only [hlw] at h
          simp at h
        | some pt =>
          simp only [hlw] at h
          simp only [List.mem_singleton] at h
          have h2 : WsAction.settle pt.1 (Outcome.resolved (InPayload.plain et d)) =
              WsAction.settle p o := h.symm
          injection h2 with he1 he2
          have hwx := hInv.wait _ (lookupA_some_mem hlw)
          refine ⟨?_, ?_, ?_⟩
          · rw [← he1]
            exact hwx.1
          · simp only [SandboxWebSocket.onMessage, hlp, hlw]
            rw [← he1]
            exact settleFirst_isSome_self _ _ _
          · intro hpm
            exfalso
            rw [← he1] at hpm
            exact hwx.2.1 hpm
  | fireTimer tid =>
    cases hlt : lookupA s.timers tid with
    | none =>
      exfalso
      simp only [step, SandboxWebSocket.fireTimer, hlt] at h
      simp at h
    | some k =>
      cases k with
      | requestTimeout mid pid et =>
        simp only [step, SandboxWebSocket.fireTimer, hlt] at h
        simp only [List.mem_singleton] at h
        have h2 : WsAction.settle pid (Outcome.rejected (requestTimeoutMsg et)) =
            WsAction.settle p o := h.symm
        injection h2 with he1 he2
        have hlp : lookupA s.pending mid = some (pid, tid) := by
          have h3 := (hInv.timer _ (lookupA_some_mem hlt)).2
          rw [timerPidOk] at h3
          exact h3
        have hmem : (mid, (pid, tid)) ∈ s.pending := lookupA_some_mem hlp
        have hp := hInv.pend _ hmem
        dsimp only at hp
        refine ⟨?_, ?_, ?_⟩
        · rw [← he1]
          exact hp.1
        · simp only [step, SandboxWebSocket.fireTimer, hlt]
          rw [← he1]
          exact settleFirst_isSome_self _ _ _
        · intro hpm
          refine ⟨?_, ?_, Or.inr (Or.inl ⟨tid, et, rfl, he2.symm⟩)⟩
          · rw [← he1]
            exact hp.2.2.1
          · rw [← he1]
            exact List.mem_map.2 ⟨(mid, (pid, tid)), hmem, rfl⟩
      | waiterTimeout et pid =>
        simp only [step, SandboxWebSocket.fireTimer, hlt] at h
        simp only [List.mem_singleton] at h
        have h2 : WsAction.settle pid (Outcome.rejected (waiterTimeoutMsg et)) =
            WsAction.settle p o := h.symm
        injection h2 with he1 he2
        have hk := (hInv.timer _ (lookupA_some_mem hlt)).2
        rw [timerPidOk] at hk
        refine ⟨?_, ?_, ?_⟩
        · rw [← he1]
          exact hk.1
        · simp only [step, SandboxWebSocket.fireTimer, hlt]
          rw [← he1]
          exact settleFirst_isSome_self _ _ _
        · intro hpm
          exfalso
          rw [← he1] at hpm
          exact hk.2 hpm
      | waiterTimeoutG et pid =>
        simp only [step, SandboxWebSocket.fireTimer, hlt] at h
        cases hlw : lookupA s.waiters et with
        | none =>
          exfalso
          simp only [hlw] at h
          simp at h
        | some pt =>
          simp only [hlw] at h
          by_cases hpe : pt.1 = pid
          · rw [if_pos hpe] at h
            simp only [List.mem_singleton] at h
            have h2 : WsAction.settle pid (Outcome.rejected (waiterTimeoutMsg et)) =
                WsAction.settle p o := h.symm
            injection h2 with he1 he2
            have hk := (hInv.timer _ (lookupA_some_mem hlt)).2
            rw [timerPidOk] at hk
            refine ⟨?_, ?_, ?_⟩
            · rw [← he1]
              exact hk.1
            · simp only [step, SandboxWebSocket.fireTimer, hlt]
              simp only [hlw]
              rw [if_pos hpe]
              rw [← he1]
              exact settleFirst_isSome_self _ _ _
            · intro hpm
              exfalso
              rw [← he1] at hpm
              exact hk.2 hpm
          · exfalso
            rw [if_neg hpe] at h
            simp at h

theorem step_settled_new {s : WsState} {e : WsEvent} {p : Nat}
    (h0 : lookupA s.settled p = none)
    (h1 : (lookupA (step s e).1.settled p).isSome = true) :
    ∃ o, WsAction.settle p o ∈ (step s e).2 := by
  cases e with
  | opSend et d =>
    exfalso
    simp only [step, SandboxWebSocket.send, SandboxWebSocket.sendSingleMessage] at h1
    split at h1
    · simp [h0] at h1
    · simp [h0] at h1
  | opWaitForEvent et g =>
    cases hpr : lookupA s.waiters et with
    | none =>
      exfalso
      simp only [step, SandboxWebSocket.waitForNextFutureWebSocketEvent, hpr] at h1
      simp [h0] at h1
    | some pe =>
      simp only [step, SandboxWebSocket.waitForNextFutureWebSocketEvent, hpr] at h1 ⊢
      rcases lookupA_settleFirst_isSome h1 with h2 | h2
      · rw [h0] at h2
        simp at h2
      · exact ⟨Outcome.rejected replacedMsg, by rw [h2]; simp⟩
  | opAddHandler t hh =>
    exfalso
    simp only [step, SandboxWebSocket.addStreamingTaskHandler] at h1
    simp [h0] at h1
  | opDisconnect =>
    exact ⟨Outcome.rejected wsClosedMsg,
      cleanDirty_settled_gain (s := { s with shouldAutoReconnect := false }) h0 h1⟩
  | opDisconnectV3 =>
    exact ⟨Outcome.rejected wsClosedMsg, cleanDirty_settled_gain h0 h1⟩
  | opDisableAutoReconnect =>
    exfalso
    simp only [step, SandboxWebSocket.disableWsAutoReconnect] at h1
    simp [h0] at h1
  | opConnect =>
    exfalso
    simp only [step, SandboxWebSocket.connect] at h1
    split at h1
    · simp [h0] at h1
    · simp [h0] at h1
  | transportOpen =>
    exfalso
    simp only [step] at h1
    split at h1
    · simp only [SandboxWebSocket.onOpen] at h1
      simp [h0] at h1
    · simp [h0] at h1
  | transportClose =>
    by_cases hw : s.wsPresent = true
    case pos =>
      have hstep : step s WsEvent.transportClose = SandboxWebSocket.onClose s := by
        simp only [step]
        rw [if_pos hw]
      rw [hstep] at h1 ⊢
      exact ⟨Outcome.rejected wsClosedMsg,
        cleanDirty_settled_gain
          (s := { s with connectionState := ConnState.disconnected }) h0 h1⟩
    case neg =>
      exfalso
      simp only [Bool.not_eq_true] at hw
      simp only [step, hw] at h1
      simp [h0] at h1
  | inbound m =>
    by_cases hw : s.wsPresent = true
    case neg =>
      exfalso
      simp only [Bool.not_eq_true] at hw
      simp only [step, hw] at h1
      simp [h0] at h1
    case pos =>
    have hstep : step s (WsEvent.inbound m) = SandboxWebSocket.onMessage s m := by
      simp only [step]
      rw [if_pos hw]
    rw [hstep] at h1 ⊢
    rcases m with ⟨mid, pay⟩
    cases pay with
    | stream t pr det =>
      exfalso
      simp only [SandboxWebSocket.onMessage] at h1
      cases hh : lookupA s.handlers t with
      | none =>
        simp only [hh] at h1
        simp [h0] at h1
      | some hd =>
        simp only [hh] at h1
        cases det with
        | io so se => simp [h0] at h1
        | close c err => simp [h0] at h1
    | plain et d =>
      simp only [SandboxWebSocket.onMessage] at h1 ⊢
      cases hlp : lookupA s.pending mid with
      | some pt =>
        simp only [hlp] at h1 ⊢
        rcases lookupA_settleFirst_isSome h1 with h2 | h2
        · rw [h0] at h2
          simp at h2
        · exact ⟨Outcome.resolved (InPayload.plain et d), by rw [h2]; simp⟩
      | none =>
        simp only [hlp] at h1 ⊢
        cases hlw : lookupA s.waiters (InPayload.plain et d).eventType with
        | none =>
          exfalso
          simp only [hlw] at h1
          simp [h0] at h1
        | some pt =>
          simp only [hlw] at h1 ⊢
          rcases lookupA_settleFirst_isSome h1 with h2 | h2
          · rw [h0] at h2
            simp at h2
          · exact ⟨Outcome.resolved (InPayload.plain et d), by rw [h2]; simp⟩
  | fireTimer tid =>
    cases hlt : lookupA s.timers tid with
    | none =>
      exfalso
      simp only [step, SandboxWebSocket.fireTimer, hlt] at h1
      simp [h0] at h1
    | some k =>
      cases k with
      | requestTimeout mid pid et =>
        simp only [step, SandboxWebSocket.fireTimer, hlt] at h1 ⊢
        rcases lookupA_settleFirst_isSome h1 with h2 | h2
        · rw [h0] at h2
          simp at h2
        · exact ⟨Outcome.rejected (requestTimeoutMsg et), by rw [h2]; simp⟩
      | waiterTimeout et pid =>
        simp only [step, SandboxWebSocket.fireTimer, hlt] at h1 ⊢
        rcases lookupA_settleFirst_isSome h1 with h2 | h2
        · rw [h0] at h2
          simp at h2
        · exact ⟨Outcome.rejected (waiterTimeoutMsg et), by rw [h2]; simp⟩
      | waiterTimeoutG et pid =>
        simp only [step, SandboxWebSocket.fireTimer, hlt] at h1 ⊢
        cases hlw : lookupA s.waiters et with
        | none =>
          exfalso
          simp only [hlw] at h1
          simp [h0] at h1
        | some pt =>
          simp only [hlw] at h1 ⊢
          by_cases hpe : pt.1 = pid
          · rw [if_pos hpe] at h1 ⊢
            rcases lookupA_settleFirst_isSome h1 with h2 | h2
            · rw [h0] at h2
              simp at h2
            · exact ⟨Outcome.rejected (waiterTimeoutMsg et), by rw [h2]; simp⟩
          · exfalso
            rw [if_neg hpe] at h1
            simp [h0] at h1

theorem cleanDirty_send_count {s : WsState} (hInv : Inv s) {pid : Nat}
    (hpid : pid ∈ s.sendPids) :
    countSettles pid (SandboxWebSocket.cleanDirtyWebSocketIfPresent s).2 ≤ 1 := by
  rw [cleanDirty_acts, countSettles_append, countSettles_append]
  have hclose : countSettles pid (if s.wsPresent then [WsAction.closeTransport] else [])
      = 0 := by
    apply countSettles_eq_zero
    intro o hmem
    split at hmem
    · simp at hmem
    · simp at hmem
  have hpend : countSettles pid
      (s.pending.map (fun x => WsAction.settle x.2.1 (Outcome.rejected wsClosedMsg)))
      ≤ 1 := by
    have he : s.pending.map (fun x => WsAction.settle x.2.1 (Outcome.rejected wsClosedMsg)) =
        (s.pending.map (fun x => x.2)).map
          (fun y => WsAction.settle y.1 (Outcome.rejected wsClosedMsg)) := by
      rw [List.map_map]
      rfl
    rw [he, countSettles_map_settle]
    apply countP_fst_le_one
    have hn := hInv.pendPidsNodup
    rw [List.map_map]
    exact hn
  have hwait : countSettles pid
      (s.waiters.map (fun x => WsAction.settle x.2.1 (Outcome.rejected wsClosedMsg)))
      = 0 := by
    apply countSettles_eq_zero
    intro o hmem
    rcases List.mem_map.1 hmem with ⟨x, hx, hxe⟩
    have h3 : WsAction.settle x.2.1 (Outcome.rejected wsClosedMsg) =
        WsAction.settle pid o := hxe
    injection h3 with he1 he2
    refine (hInv.wait x hx).2.1 ?_
    rw [he1]
    exact hpid
  omega

theorem step_send_count {s : WsState} (hInv : Inv s) (e : WsEvent) {pid : Nat}
    (hpid : pid ∈ s.sendPids) : countSettles pid (step s e).2 ≤ 1 := by
  cases e with
  | opSend et d =>
    have h0 : countSettles pid (step s (WsEvent.opSend et d)).2 = 0 := by
      apply countSettles_eq_zero
      intro o hmem
      simp only [step, SandboxWebSocket.send, SandboxWebSocket.sendSingleMessage] at hmem
      split at hmem
      · simp at hmem
      · simp at hmem
    omega
  | opWaitForEvent et g =>
    refine (countSettles_le_length _ _).trans ?_
    cases hpr : lookupA s.waiters et with
    | none =>
      simp only [step, SandboxWebSocket.waitForNextFutureWebSocketEvent, hpr]
      exact Nat.zero_le 1
    | some pe =>
      simp only [step, SandboxWebSocket.waitForNextFutureWebSocketEvent, hpr]
      exact Nat.le_refl 1
  | opAddHandler t hh => exact Nat.zero_le 1
  | opDisconnect =>
    exact cleanDirty_send_count (inv_congr hInv rfl rfl rfl rfl rfl rfl rfl rfl) hpid
  | opDisconnectV3 => exact cleanDirty_send_count hInv hpid
  | opDisableAutoReconnect => exact Nat.zero_le 1
  | opConnect =>
    refine (countSettles_le_length _ _).trans ?_
    simp only [step, SandboxWebSocket.connect]
    split
    · exact Nat.zero_le 1
    · exact Nat.zero_le 1
  | transportOpen =>
    have h0 : countSettles pid (step s WsEvent.transportOpen).2 = 0 := by
      apply countSettles_eq_zero
      intro o hmem
      simp only [step] at hmem
      split at hmem
      · simp only [SandboxWebSocket.onOpen] at hmem
        rcases List.mem_map.1 hmem with ⟨m2, hm2, hme⟩
        have h3 : WsAction.transportSend m2 = WsAction.settle pid o := hme
        cases h3
      · simp at hmem
    omega
  | transportClose =>
    by_cases hw : s.wsPresent = true
    case pos =>
      have hstep : step s WsEvent.transportClose = SandboxWebSocket.onClose s := by
        simp only [step]
        rw [if_pos hw]
      rw [hstep]
      exact cleanDirty_send_count (inv_congr hInv rfl rfl rfl rfl rfl rfl rfl rfl) hpid
    case neg =>
      simp only [Bool.not_eq_true] at hw
      simp only [step, hw]
      exact Nat.zero_le 1
  | inbound m =>
    by_cases hw : s.wsPresent = true
    case neg =>
      simp only [Bool.not_eq_true] at hw
      simp only [step, hw]
      exact Nat.zero_le 1
    case pos =>
    have hstep : step s (WsEvent.inbound m) = SandboxWebSocket.onMessage s m := by
      simp only [step]
      rw [if_pos hw]
    rw [hstep]
    rcases m with ⟨mid, pay⟩
    cases pay with
    | stream t pr det =>
      have h0 : countSettles pid (SandboxWebSocket.onMessage s ⟨mid, InPayload.stream t pr det⟩).2
          = 0 := by
        apply countSettles_eq_zero
        intro o hmem
        simp only [SandboxWebSocket.onMessage] at hmem
        cases hh : lookupA s.handlers t with
        | none =>
          simp only [hh] at hmem
          simp at hmem
        | some hd =>
          simp only [hh] at hmem
          cases det with
          | io so se =>
            dsimp only at hmem
            rcases List.mem_append.1 hmem with h2 | h2
            · cases so with
              | none => simp at h2
              | some v =>
                cases hso : hd.onStdout with
                | true => simp [hso] at h2
                | false => simp [hso] at h2
            · cases se with
              | none => simp at h2
              | some v =>
                cases hse : hd.onStderr with
                | true => simp [hse] at h2
                | false => simp [hse] at h2
          | close c err =>
            dsimp only at hmem
            cases hoc : hd.onClose with
            | true => simp [hoc] at hmem
            | false => simp [hoc] at hmem
      omega
    | plain et d =>
      refine (countSettles_le_length _ _).trans ?_
      simp only [SandboxWebSocket.onMessage]
      cases hlp : lookupA s.pending mid with
      | some pt =>
        simp only [hlp]
        exact Nat.le_refl 1
      | none =>
        simp only [hlp]
        cases hlw : lookupA s.waiters (InPayload.plain et d).eventType with
        | some pt =>
          simp only [hlw]
          exact Nat.le_refl 1
        | none =>
          simp only [hlw]
          exact Nat.zero_le 1
  | fireTimer tid =>
    refine (countSettles_le_length _ _).trans ?_
    cases hlt : lookupA s.timers tid with
    | none =>
      simp only [step, SandboxWebSocket.fireTimer, hlt]
      exact Nat.zero_le 1
    | some k =>
      cases k with
      | requestTimeout mid pid2 et =>
        simp only [step, SandboxWebSocket.fireTimer, hlt]
        exact Nat.le_refl 1
      | waiterTimeout et pid2 =>
        simp only [step, SandboxWebSocket.fireTimer, hlt]
        exact Nat.le_refl 1
      | waiterTimeoutG et pid2 =>
        simp only [step, SandboxWebSocket.fireTimer, hlt]
        cases hlw : lookupA s.waiters et with
        | none =>
          simp only [hlw]
          exact Nat.zero_le 1
        | some pt =>
          simp only [hlw]
          by_cases hpe : pt.1 = pid2
          · rw [if_pos hpe]
            exact Nat.le_refl 1
          · rw [if_neg hpe]
            exact Nat.zero_le 1

theorem run_send_count (tr : List WsEvent) (s : WsState) (hInv : Inv s) (pid : Nat)
    (hpid : pid ∈ (run s tr).1.sendPids) :
    (pid ∈ s.sendPids → lookupA s.settled pid = none →
      countSettles pid (run s tr).2 =
        (if (lookupA (run s tr).1.settled pid).isSome then 1 else 0)) ∧
    (pid ∈ s.sendPids → (lookupA s.settled pid).isSome = true →
      countSettles pid (run s tr).2 = 0) ∧
    (pid ∉ s.sendPids →
      countSettles pid (run s tr).2 =
        (if (lookupA (run s tr).1.settled pid).isSome then 1 else 0)) := by
  induction tr generalizing s with
  | nil =>
    refine ⟨?_, ?_, ?_⟩
    · intro _ hnone
      simp [run, countSettles, hnone]
    · intro _ _
      simp [run, countSettles]
    · intro hnot
      exact absurd hpid hnot
  | cons e es ih =>
    have hInv2 : Inv (step s e).1 := inv_step hInv e
    have hpid2 : pid ∈ (run (step s e).1 es).1.sendPids := hpid
    have hrec := ih (step s e).1 hInv2 hpid2
    have hsplit : countSettles pid (run s (e :: es)).2 =
        countSettles pid (step s e).2 + countSettles pid (run (step s e).1 es).2 := by
      have h2 : (run s (e :: es)).2 = (step s e).2 ++ (run (step s e).1 es).2 := rfl
      rw [h2, countSettles_append]
    have hfin : (run s (e :: es)).1 = (run (step s e).1 es).1 := rfl
    rw [hsplit, hfin]
    refine ⟨?_, ?_, ?_⟩
    · intro hmem hnone
      by_cases hafter : (lookupA (step s e).1.settled pid).isSome = true
      · obtain ⟨o, ho⟩ := step_settled_new hnone hafter
        have hle := step_send_count hInv e hmem
        have hge := countSettles_pos ho
        have hstep1 : countSettles pid (step s e).2 = 1 := by omega
        have hrest : countSettles pid (run (step s e).1 es).2 = 0 :=
          hrec.2.1 (step_sendPids_mono e hmem) hafter
        rcases Option.isSome_iff_exists.1 hafter with ⟨o2, ho2⟩
        have hfinal := run_settled_mono es (step s e).1 ho2
        have hfin2 : (lookupA (run (step s e).1 es).1.settled pid).isSome = true := by
          rw [hfinal]
          rfl
        rw [hstep1, hrest, if_pos hfin2]
      · have hnone2 : lookupA (step s e).1.settled pid = none :=
          Option.not_isSome_iff_eq_none.1 (by simpa using hafter)
        have hstep0 : countSettles pid (step s e).2 = 0 := by
          apply countSettles_eq_zero
          intro o hmemact
          exact hafter ((step_settle_cases hInv hmemact).2.1)
        have hrest := hrec.1 (step_sendPids_mono e hmem) hnone2
        rw [hstep0, hrest, Nat.zero_add]
    · intro hmem hsome
      have hstep0 : countSettles pid (step s e).2 = 0 := by
        apply countSettles_eq_zero
        intro o hmemact
        have h3 := (step_settle_cases hInv hmemact).2.2 hmem
        rw [h3.1] at hsome
        simp at hsome
      rcases Option.isSome_iff_exists.1 hsome with ⟨o2, ho2⟩
      have hsome2 : (lookupA (step s e).1.settled pid).isSome = true := by
        rw [step_settled_mono e ho2]
        rfl
      have hrest := hrec.2.1 (step_sendPids_mono e hmem) hsome2
      rw [hstep0, hrest]
    · intro hnot
      by_cases hstepmem : pid ∈ (step s e).1.sendPids
      · obtain ⟨hnos, hnone2⟩ := step_fresh_send hInv e hnot hstepmem
        have hstep0 : countSettles pid (step s e).2 = 0 := countSettles_eq_zero hnos
        have hrest := hrec.1 hstepmem hnone2
        rw [hstep0, hrest, Nat.zero_add]
      · have hge : s.nextPid ≤ pid := by
          rcases run_sendPids_origin es (step s e).1 hpid2 with h2 | h2
          · exact absurd h2 hstepmem
          · have h3 := step_nextPid_mono s e
            omega
        have hstep0 : countSettles pid (step s e).2 = 0 := by
          apply countSettles_eq_zero
          intro o hmemact
          have h3 := (step_settle_cases hInv hmemact).1
          omega
        have hrest := hrec.2.2 hstepmem
        rw [hstep0, hrest, Nat.zero_add]

/-- C1: every request sent through the channel is settled exactly once —
the number of settle attempts on its promise matches its settlement
record (0 while still pending, 1 once settled, and exactly 1 as soon as
its entry has left the pending map), an inbound response settles exactly
the pending future whose registered message id it matches while every
other pending entry stays pending and unsettled, and any settle of a
send-created promise arises from a matching inbound message, its request
timeout, or channel teardown. -/
theorem c1_request_settled_exactly_once (tr : List WsEvent) :
    (∀ pid ∈ (run SandboxWebSocket.initState tr).1.sendPids,
      countSettles pid (run SandboxWebSocket.initState tr).2 =
        (if (lookupA (run SandboxWebSocket.initState tr).1.settled pid).isSome
          then 1 else 0) ∧
      (pid ∉ pendingPids (run SandboxWebSocket.initState tr).1 →
        countSettles pid (run SandboxWebSocket.initState tr).2 = 1)) ∧
    (∀ (mid : Nat) (et d : String) (pt : Nat × Nat),
      (run SandboxWebSocket.initState tr).1.wsPresent = true →
      lookupA (run SandboxWebSocket.initState tr).1.pending mid = some pt →
      (step (run SandboxWebSocket.initState tr).1
          (WsEvent.inbound ⟨mid, InPayload.plain et d⟩)).2 =
        [WsAction.settle pt.1 (Outcome.resolved (InPayload.plain et d))] ∧
      (∀ x ∈ (run SandboxWebSocket.initState tr).1.pending, x.1 ≠ mid →
        x ∈ (step (run SandboxWebSocket.initState tr).1
            (WsEvent.inbound ⟨mid, InPayload.plain et d⟩)).1.pending ∧
        lookupA (step (run SandboxWebSocket.initState tr).1
            (WsEvent.inbound ⟨mid, InPayload.plain et d⟩)).1.settled x.2.1 = none)) ∧
    (∀ (e : WsEvent) (pid : Nat) (o : Outcome),
      pid ∈ (run SandboxWebSocket.initState tr).1.sendPids →
      WsAction.settle pid o ∈ (step (run SandboxWebSocket.initState tr).1 e).2 →
      ((∃ m, e = WsEvent.inbound m ∧ o = Outcome.resolved m.payload) ∨
       (∃ tid et2, e = WsEvent.fireTimer tid ∧
         o = Outcome.rejected (requestTimeoutMsg et2)) ∨
       ((e = WsEvent.opDisconnect ∨ e = WsEvent.opDisconnectV3 ∨
          e = WsEvent.transportClose) ∧
         o = Outcome.rejected wsClosedMsg))) := by
  have hInv : Inv (run SandboxWebSocket.initState tr).1 := inv_run inv_init tr
  refine ⟨?_, ?_, ?_⟩
  · intro pid hpid
    have hmain := (run_send_count tr SandboxWebSocket.initState inv_init pid hpid).2.2
      (by simp [SandboxWebSocket.initState])
    refine ⟨hmain, ?_⟩
    intro hnp
    rcases (hInv.sendAcc pid hpid).2 with h2 | h2
    · exact absurd h2 hnp
    · rw [hmain, if_pos h2]
  · intro mid et d pt hws hlp
    have hstep : step (run SandboxWebSocket.initState tr).1
        (WsEvent.inbound ⟨mid, InPayload.plain et d⟩) =
        SandboxWebSocket.onMessage (run SandboxWebSocket.initState tr).1
          ⟨mid, InPayload.plain et d⟩ := by
      simp only [step]
      rw [if_pos hws]
    rw [hstep]
    constructor
    · simp only [SandboxWebSocket.onMessage, hlp]
    · intro x hx hxne
      simp only [SandboxWebSocket.onMessage, hlp]
      refine ⟨mem_eraseA_of_mem hx hxne, ?_⟩
      have hmem : (mid, pt) ∈ (run SandboxWebSocket.initState tr).1.pending :=
        lookupA_some_mem hlp
      have hpidne : pt.1 ≠ x.2.1 := by
        intro he
        have hxeq := List.inj_on_of_nodup_map hInv.pendPidsNodup hx hmem he.symm
        exact hxne (by rw [hxeq])
      rw [lookupA_settleFirst_ne _ hpidne]
      exact (hInv.pend x hx).2.2.1
  · intro e pid o hpid hmemact
    exact ((step_settle_cases hInv hmemact).2.2 hpid).2.2

theorem c1_witness :
    countSettles 0 (run SandboxWebSocket.initState
      [WsEvent.opConnect, WsEvent.transportOpen, WsEvent.opSend "HealthPing" "",
       WsEvent.inbound ⟨0, InPayload.plain "HealthPingResponse" "pong"⟩]).2 = 1 := by
  have h := (c1_request_settled_exactly_once
      [WsEvent.opConnect, WsEvent.transportOpen, WsEvent.opSend "HealthPing" "",
       WsEvent.inbound ⟨0, InPayload.plain "HealthPingResponse" "pong"⟩]).1 0 (by decide)
  exact h.2 (by decide)

end FermionSdk
